import Mathlib

/-!
Verification of the podx DDIL network core (src/src/network/) against its
design specification.  The three components embedded here are
`ddil_controller.py`, `cache_manager.py` and `handover_manager.py`.

Modelling conventions:
* Python floats (latencies, bandwidths, signal strengths, rates) are
  modelled as rationals (`ℚ`); Python ints as `ℤ` or `ℕ` as appropriate
  (byte sizes are natural numbers, the mutable used-bytes counter is `ℤ`
  exactly as a Python int).
* `datetime.now()` values are injected as abstract clock readings (`ℕ`).
* `random.uniform` draws inside `_simulate_path_metrics` are injected as a
  probe reading per path, so polling is a function of the injected probe.
* Python dicts keyed by mode/key are association lists in insertion order,
  which is how CPython dicts iterate.
* A Python operation that can raise is embedded with `Except`; the probe
  injected into the monitoring cycle may raise, mirroring the `try/except`
  placement of `_monitor_loop`.
-/

namespace Podx

/-- NetworkMode enum of ddil_controller.py. -/
inductive NetworkMode
  | satellite
  | cellular5g
  | loraMesh
  | hfRadio
  | wired
  | offline
  deriving DecidableEq, Repr

/-- ConnectionState enum of ddil_controller.py. -/
inductive ConnectionState
  | disconnected
  | connecting
  | connected
  | degraded
  | failing
  deriving DecidableEq, Repr

/-- NetworkPath dataclass of ddil_controller.py. -/
structure NetworkPath where
  mode : NetworkMode
  state : ConnectionState := ConnectionState.disconnected
  latency_ms : ℚ := 0
  bandwidth_mbps : ℚ := 0
  packet_loss_pct : ℚ := 0
  signal_strength_dbm : ℚ := -100
  last_active : Option ℕ := none
  priority : ℕ := 0
  enabled : Bool := true
  deriving DecidableEq, Repr

/-- Events fired through the callback lists of DDILController
(`path_change`, `handover`, `ddil_enter`, `ddil_exit`). -/
inductive DDILEvent
  | path_change
  | handover : Option NetworkMode → NetworkMode → DDILEvent
  | ddil_enter
  | ddil_exit
  deriving DecidableEq, Repr

/-- One probe reading: the raw values drawn by `_simulate_path_metrics`
for one path (latency, bandwidth, signal strength and the raw packet-loss
draw before the `max(0, ...)` clamp). -/
structure ProbeReading where
  latency_ms : ℚ
  bandwidth_mbps : ℚ
  signal_strength_dbm : ℚ
  packet_loss_raw : ℚ
  deriving DecidableEq, Repr

/-- DDILController mutable state: the path table in insertion order and the
current `active_mode`. -/
structure DDILController where
  paths : List NetworkPath
  active_mode : Option NetworkMode := none
  autonomy_hours : ℚ := 24
  deriving DecidableEq, Repr

/-- DEFAULT_PRIORITIES of DDILController (`.get(mode, 10)` supplies 10). -/
def defaultPriority : NetworkMode → ℕ
  | NetworkMode.wired => 1
  | NetworkMode.cellular5g => 2
  | NetworkMode.satellite => 3
  | NetworkMode.loraMesh => 4
  | NetworkMode.hfRadio => 5
  | NetworkMode.offline => 10

/-- Iteration order of the `NetworkMode` enum without OFFLINE, which is the
insertion order of `self.paths` built by the path initialisation loop. -/
def pathModes : List NetworkMode :=
  [NetworkMode.satellite, NetworkMode.cellular5g, NetworkMode.loraMesh,
   NetworkMode.hfRadio, NetworkMode.wired]

/-- One freshly initialised path (all defaults, priority from the table). -/
def initPath (m : NetworkMode) : NetworkPath :=
  { mode := m, priority := defaultPriority m }

/-- Controller state right after `__init__` / the path initialisation loop. -/
def ddilInit : DDILController :=
  { paths := pathModes.map initPath, active_mode := none, autonomy_hours := 24 }

/-- `self.paths.get(mode)`: first (unique) path with the given mode. -/
def findPath (s : DDILController) (m : NetworkMode) : Option NetworkPath :=
  s.paths.find? (fun p => p.mode == m)

/-- Body of `_simulate_path_metrics` applied to one path given its injected
reading: metrics are overwritten, packet loss is clamped at 0, the state
becomes CONNECTED when the signal is above -95 dBm and DEGRADED otherwise,
and `last_active` is set to the current time. -/
def applyReading (r : ProbeReading) (now : ℕ) (p : NetworkPath) : NetworkPath :=
  { p with
    latency_ms := r.latency_ms,
    bandwidth_mbps := r.bandwidth_mbps,
    signal_strength_dbm := r.signal_strength_dbm,
    packet_loss_pct := max 0 r.packet_loss_raw,
    state := if r.signal_strength_dbm > -95 then ConnectionState.connected
             else ConnectionState.degraded,
    last_active := some now }

/-- `_update_path_status`: walk the path table in order, skipping disabled
paths and polling enabled ones.  A probe exception stops the walk there:
earlier paths keep their fresh metrics, the raising path and all later
paths are left untouched, and the error flag is reported to the caller
(the `try/except` lives in `_monitor_loop`, around the whole cycle). -/
def updatePathsE (probe : NetworkMode → Except String ProbeReading) (now : ℕ) :
    List NetworkPath → List NetworkPath × Bool
  | [] => ([], false)
  | p :: rest =>
    if p.enabled then
      match probe p.mode with
      | Except.error _ => (p :: rest, true)
      | Except.ok r =>
        let step := updatePathsE probe now rest
        (applyReading r now p :: step.1, step.2)
    else
      let step := updatePathsE probe now rest
      (p :: step.1, step.2)

/-- Eligibility filter of `_select_best_path`: enabled and CONNECTED or
DEGRADED. -/
def availablePaths (s : DDILController) : List NetworkPath :=
  s.paths.filter (fun p =>
    p.enabled && (p.state == ConnectionState.connected
                  || p.state == ConnectionState.degraded))

/-- Strict comparison on the sort key `(priority, latency_ms)` used by
`_select_best_path`. -/
def ltSelKey (a b : NetworkPath) : Bool :=
  decide (a.priority < b.priority)
  || (a.priority == b.priority && decide (a.latency_ms < b.latency_ms))

/-- Head of a stable sort by a strict comparison: the first element whose
key is minimal.  `list.sort(key=...)` is stable in Python, so
`sorted_list[0]` is exactly this element. -/
def firstMinBy (lt : α → α → Bool) : List α → Option α
  | [] => none
  | x :: xs => some (xs.foldl (fun acc y => if lt y acc then y else acc) x)

/-- `_perform_handover`: set `active_mode` and fire the handover
callbacks with (old mode, new mode). -/
def performHandover (newMode : NetworkMode) (s : DDILController) :
    DDILController × List DDILEvent :=
  ({ s with active_mode := some newMode },
   [DDILEvent.handover s.active_mode newMode])

/-- `_enter_ddil_mode`: set `active_mode` to OFFLINE and fire the
`ddil_enter` callbacks. -/
def enterDdilMode (s : DDILController) : DDILController × List DDILEvent :=
  ({ s with active_mode := some NetworkMode.offline }, [DDILEvent.ddil_enter])

/-- `_select_best_path`: among enabled CONNECTED/DEGRADED paths take the
head of the stable sort by `(priority, latency_ms)`; with no candidate,
enter DDIL mode unless already OFFLINE; otherwise hand over when the best
mode differs from the active one. -/
def selectBestPath (s : DDILController) : DDILController × List DDILEvent :=
  match firstMinBy ltSelKey (availablePaths s) with
  | none =>
    if s.active_mode == some NetworkMode.offline then (s, [])
    else enterDdilMode s
  | some best =>
    if s.active_mode == some best.mode then (s, [])
    else performHandover best.mode s

/-- `_check_handover_needed`: with no active mode select; otherwise look the
active mode up in the path table (OFFLINE is absent, giving `none`) and
re-select when the lookup fails or the path is DISCONNECTED or FAILING. -/
def checkHandoverNeeded (s : DDILController) : DDILController × List DDILEvent :=
  match s.active_mode with
  | none => selectBestPath s
  | some m =>
    match findPath s m with
    | none => selectBestPath s
    | some p =>
      if p.state == ConnectionState.disconnected
         || p.state == ConnectionState.failing then selectBestPath s
      else (s, [])

/-- One iteration of the `_monitor_loop` body: `_update_path_status` then
`_check_handover_needed`, with the whole pair guarded by one
`try/except` — a probe exception leaves the partially updated table in
place and skips the handover check for that cycle. -/
def monitorCycleE (probe : NetworkMode → Except String ProbeReading) (now : ℕ)
    (s : DDILController) : DDILController × List DDILEvent :=
  let step := updatePathsE probe now s.paths
  let s1 : DDILController := { s with paths := step.1 }
  if step.2 then (s1, []) else checkHandoverNeeded s1

/-- A poll cycle in which every probe succeeds. -/
def pollCycle (probe : NetworkMode → ProbeReading) (now : ℕ)
    (s : DDILController) : DDILController × List DDILEvent :=
  monitorCycleE (fun m => Except.ok (probe m)) now s

/-- `enable_path`: set the enabled flag of the named path (no
re-selection). -/
def enablePath (m : NetworkMode) (s : DDILController) : DDILController :=
  { s with paths := s.paths.map (fun p =>
      if p.mode == m then { p with enabled := true } else p) }

/-- The path table after `disable_path` clears the enabled flag of the
named path. -/
def disableFlag (m : NetworkMode) (s : DDILController) : DDILController :=
  { s with paths := s.paths.map (fun p =>
      if p.mode == m then { p with enabled := false } else p) }

/-- `disable_path`: clear the enabled flag and re-select immediately when
the disabled path was the active one. -/
def disablePath (m : NetworkMode) (s : DDILController) :
    DDILController × List DDILEvent :=
  if s.paths.any (fun p => p.mode == m) then
    if s.active_mode == some m then selectBestPath (disableFlag m s)
    else (disableFlag m s, [])
  else (s, [])

/-- `force_handover`: reject unknown or disabled targets, otherwise perform
the handover unconditionally; the Bool is the Python return value. -/
def forceHandover (m : NetworkMode) (s : DDILController) :
    (DDILController × List DDILEvent) × Bool :=
  match findPath s m with
  | none => ((s, []), false)
  | some p =>
    if p.enabled then (performHandover m s, true)
    else ((s, []), false)

/-- The `.value` strings of the NetworkMode enum. -/
def NetworkMode.value : NetworkMode → String
  | NetworkMode.satellite => "satellite"
  | NetworkMode.cellular5g => "cellular_5g"
  | NetworkMode.loraMesh => "lora_mesh"
  | NetworkMode.hfRadio => "hf_radio"
  | NetworkMode.wired => "wired"
  | NetworkMode.offline => "offline"

/-- DDILStatus snapshot (the fields computed from controller state;
the simulated cache/sync constants of `get_status` are not modelled). -/
structure DDILStatus where
  mode : String
  active_paths : List String
  primary_path : Option String
  total_bandwidth_mbps : ℚ
  average_latency_ms : ℚ
  ddil_autonomy_remaining_hours : ℚ
  deriving DecidableEq, Repr

/-- `get_status`: the mode string is "connected" whenever `active_mode`
differs from OFFLINE (including `None`) and "ddil" otherwise; bandwidth
and latency aggregate over CONNECTED paths. -/
def getStatus (s : DDILController) : DDILStatus :=
  let conn := s.paths.filter (fun p => p.state == ConnectionState.connected)
  let lats := conn.map (fun p => p.latency_ms)
  { mode := if s.active_mode == some NetworkMode.offline then "ddil" else "connected",
    active_paths := conn.map (fun p => p.mode.value),
    primary_path := s.active_mode.map NetworkMode.value,
    total_bandwidth_mbps := (conn.map (fun p => p.bandwidth_mbps)).sum,
    average_latency_ms := if lats.length = 0 then 0 else lats.sum / lats.length,
    ddil_autonomy_remaining_hours := s.autonomy_hours }

/-! ## Cache manager (cache_manager.py) -/

/-- CachePriority enum; the numeric `.value` is `CachePriority.val`. -/
inductive CachePriority
  | critical
  | high
  | normal
  | low
  | prefetch
  deriving DecidableEq, Repr

/-- The `.value` field of CachePriority (CRITICAL = 1 … PREFETCH = 5). -/
def CachePriority.val : CachePriority → ℕ
  | CachePriority.critical => 1
  | CachePriority.high => 2
  | CachePriority.normal => 3
  | CachePriority.low => 4
  | CachePriority.prefetch => 5

/-- CacheEntry dataclass.  The opaque `Dict[str, Any]` metadata is
modelled as an association list of strings. -/
structure CacheEntry where
  key : String
  size_bytes : ℕ
  priority : CachePriority
  created_at : ℕ
  accessed_at : ℕ
  expires_at : Option ℕ
  source : String
  checksum : String
  metadata : List (String × String) := []
  deriving DecidableEq, Repr

/-- CacheManager mutable state: the entry dict in insertion order, the
used-bytes counter (a Python int, hence `ℤ`) and the statistics
counters. -/
structure CacheManager where
  capacity_bytes : ℕ
  entries : List CacheEntry := []
  used_bytes : ℤ := 0
  hits : ℕ := 0
  misses : ℕ := 0
  evictions : ℕ := 0
  prefetch_hits : ℕ := 0
  prefetch_total : ℕ := 0
  deriving DecidableEq, Repr

/-- A freshly constructed CacheManager with the given byte capacity. -/
def cacheInit (cap : ℕ) : CacheManager := { capacity_bytes := cap }

/-- `entry.expires_at and now > entry.expires_at` (a `None` TTL never
expires). -/
def expiredB (e : CacheEntry) (now : ℕ) : Bool :=
  match e.expires_at with
  | some t => decide (now > t)
  | none => false

/-- `_remove_entry`: pop the keyed entry and subtract its size from the
used-bytes counter; report whether the key was present. -/
def removeEntry (k : String) (c : CacheManager) : CacheManager × Bool :=
  match c.entries.find? (fun e => e.key == k) with
  | some e =>
    ({ c with
       entries := c.entries.eraseP (fun e2 => e2.key == k),
       used_bytes := c.used_bytes - (e.size_bytes : ℤ) }, true)
  | none => (c, false)

/-- Non-CRITICAL eviction candidates of `_evict_lowest_priority`. -/
def evictCandidates (c : CacheManager) : List CacheEntry :=
  c.entries.filter (fun e => !(e.priority == CachePriority.critical))

/-- Strict comparison on the sort key `(-priority.value, accessed_at)`
of `_evict_lowest_priority`: greater numeric priority (less important)
first, then earlier access time. -/
def ltEvictKey (a b : CacheEntry) : Bool :=
  decide (b.priority.val < a.priority.val)
  || (a.priority.val == b.priority.val && decide (a.accessed_at < b.accessed_at))

/-- The entry `_evict_lowest_priority` removes: head of the stable sort of
the non-CRITICAL candidates by `(-priority.value, accessed_at)`. -/
def evictTarget (c : CacheManager) : Option CacheEntry :=
  firstMinBy ltEvictKey (evictCandidates c)

/-- `_evict_lowest_priority`: remove the eviction target and bump the
eviction counter, or report `False` when every entry is CRITICAL. -/
def evictLowestPriority (c : CacheManager) : CacheManager × Bool :=
  match evictTarget c with
  | none => (c, false)
  | some e =>
    let c1 := (removeEntry e.key c).1
    ({ c1 with evictions := c1.evictions + 1 }, true)

/-- The `while used + size > capacity` eviction loop at the top of `put`,
written with explicit fuel (each successful eviction removes one entry, so
`entries.length + 1` fuel always suffices).  Returns the state after the
loop and whether the insertion may proceed. -/
def evictLoop (sz : ℕ) : ℕ → CacheManager → CacheManager × Bool
  | 0, c => (c, false)
  | fuel + 1, c =>
    if c.used_bytes + (sz : ℤ) > (c.capacity_bytes : ℤ) then
      if (evictLowestPriority c).2 then evictLoop sz fuel (evictLowestPriority c).1
      else ((evictLowestPriority c).1, false)
    else (c, true)

/-- `expires_at = now + timedelta(hours=ttl_hours) if ttl_hours else None`:
note that a TTL of 0 is falsy in Python and also yields `None`. -/
def expiresOf (ttl : Option ℕ) (now : ℕ) : Option ℕ :=
  match ttl with
  | some t => if t = 0 then none else some (now + t)
  | none => none

/-- `put`: evict until the insertion fits (or fail), remove any existing
entry under the same key, append the fresh entry, add its size to the
counter and count prefetch insertions. -/
def CacheManager.put (c : CacheManager) (k : String) (sz : ℕ) (source : String)
    (prio : CachePriority) (ttl : Option ℕ) (checksum : String)
    (metadata : List (String × String)) (now : ℕ) : CacheManager × Bool :=
  let loop := evictLoop sz (c.entries.length + 1) c
  if loop.2 then
    let entry : CacheEntry :=
      { key := k, size_bytes := sz, priority := prio, created_at := now,
        accessed_at := now, expires_at := expiresOf ttl now,
        source := source, checksum := checksum, metadata := metadata }
    let c2 := (removeEntry k loop.1).1
    ({ c2 with
       entries := c2.entries ++ [entry],
       used_bytes := c2.used_bytes + (sz : ℤ),
       prefetch_total := if prio == CachePriority.prefetch
                         then c2.prefetch_total + 1 else c2.prefetch_total },
     true)
  else (loop.1, false)

/-- `get`: a miss bumps the miss counter; an expired hit is lazily removed
and counted as a miss; a live hit refreshes the access timestamp, bumps
the hit (and possibly prefetch-hit) counter and returns the refreshed
entry. -/
def CacheManager.get (c : CacheManager) (k : String) (now : ℕ) :
    CacheManager × Option CacheEntry :=
  match c.entries.find? (fun e => e.key == k) with
  | none => ({ c with misses := c.misses + 1 }, none)
  | some e =>
    if expiredB e now then
      let c1 := (removeEntry k c).1
      ({ c1 with misses := c1.misses + 1 }, none)
    else
      ({ c with
         entries := c.entries.map (fun e2 =>
           if e2.key == k then { e2 with accessed_at := now } else e2),
         hits := c.hits + 1,
         prefetch_hits := if e.priority == CachePriority.prefetch
                          then c.prefetch_hits + 1 else c.prefetch_hits },
       some { e with accessed_at := now })

/-- `remove`: public wrapper of `_remove_entry`. -/
def CacheManager.remove (c : CacheManager) (k : String) : CacheManager × Bool :=
  removeEntry k c

/-- `clear_expired`: snapshot the expired keys, remove them one by one,
return how many were removed. -/
def clearExpired (now : ℕ) (c : CacheManager) : CacheManager × ℕ :=
  let ks := (c.entries.filter (fun e => expiredB e now)).map (fun e => e.key)
  (ks.foldl (fun acc k => (removeEntry k acc).1) c, ks.length)

/-- `clear_by_priority`: snapshot the keys at the given priority, remove
them one by one, return how many were removed. -/
def clearByPriority (p : CachePriority) (c : CacheManager) : CacheManager × ℕ :=
  let ks := (c.entries.filter (fun e => e.priority == p)).map (fun e => e.key)
  (ks.foldl (fun acc k => (removeEntry k acc).1) c, ks.length)

/-- `prefetch`: put each absent key at PREFETCH priority with a default
TTL of 24, counting successful insertions. -/
def CacheManager.prefetch (c : CacheManager) (keys : List String) (source : String)
    (sizeEstimate : ℕ) (now : ℕ) : CacheManager × ℕ :=
  keys.foldl (fun acc k =>
    if acc.1.entries.any (fun e => e.key == k) then acc
    else
      let step := acc.1.put k sizeEstimate source CachePriority.prefetch
        (some 24) "" [] now
      if step.2 then (step.1, acc.2 + 1) else (step.1, acc.2))
    (c, 0)

/-- One externally invocable CacheManager operation. -/
inductive CacheOp
  | put (k : String) (sz : ℕ) (source : String) (prio : CachePriority)
      (ttl : Option ℕ) (checksum : String) (metadata : List (String × String))
      (now : ℕ)
  | get (k : String) (now : ℕ)
  | remove (k : String)
  | clearExpired (now : ℕ)
  | clearByPriority (p : CachePriority)
  | prefetch (keys : List String) (source : String) (sizeEstimate : ℕ) (now : ℕ)

/-- State reached after one operation. -/
def applyCacheOp (c : CacheManager) : CacheOp → CacheManager
  | CacheOp.put k sz source prio ttl ck md now =>
    (c.put k sz source prio ttl ck md now).1
  | CacheOp.get k now => (c.get k now).1
  | CacheOp.remove k => (c.remove k).1
  | CacheOp.clearExpired now => (clearExpired now c).1
  | CacheOp.clearByPriority p => (clearByPriority p c).1
  | CacheOp.prefetch ks src sz now => (c.prefetch ks src sz now).1

/-- Cache states reachable from a fresh manager by any operation
sequence. -/
inductive CacheReachable (cap : ℕ) : CacheManager → Prop
  | init : CacheReachable cap (cacheInit cap)
  | step {c : CacheManager} (op : CacheOp) :
      CacheReachable cap c → CacheReachable cap (applyCacheOp c op)

/-- Sum of the sizes of the entries currently in the cache. -/
def sumSizes (l : List CacheEntry) : ℤ :=
  (l.map (fun e => (e.size_bytes : ℤ))).sum

/-! ## Handover manager (handover_manager.py) -/

/-- HandoverStrategy enum. -/
inductive HandoverStrategy
  | makeBeforeBreak
  | breakBeforeMake
  | seamless
  deriving DecidableEq, Repr

/-- HandoverMetrics dataclass (one HandoverRecord). -/
structure HandoverMetrics where
  source_path : String
  target_path : String
  strategy : HandoverStrategy
  start_time : ℕ
  end_time : ℕ
  duration_ms : ℚ
  packets_lost : ℤ
  success : Bool
  error_message : Option String := none
  deriving DecidableEq, Repr

/-- HandoverManager mutable state. -/
structure HandoverManager where
  strategy : HandoverStrategy := HandoverStrategy.makeBeforeBreak
  handover_history : List HandoverMetrics := []
  deriving DecidableEq, Repr

/-- A freshly constructed HandoverManager with the default strategy. -/
def handoverInit : HandoverManager := {}

/-- Packet counts returned by the three stage implementations when no
stage raises: make-before-break 0, break-before-make 2, seamless 0. -/
def nominalStages : HandoverStrategy → Except String ℤ
  | HandoverStrategy.makeBeforeBreak => Except.ok 0
  | HandoverStrategy.breakBeforeMake => Except.ok 2
  | HandoverStrategy.seamless => Except.ok 0

/-- `execute_handover`: run the chosen strategy's stages (injected as
`stageRun`, which may raise), then build the metrics record — on success
with the stage packet count, on an exception with `success=False`,
`packets_lost=-1` and the error message — and append it to the history
either way.  Wall-clock values are injected (`t0`, `t1`, `dur`). -/
def executeHandover (m : HandoverManager) (source_path target_path : String)
    (strat : Option HandoverStrategy)
    (stageRun : HandoverStrategy → Except String ℤ)
    (t0 t1 : ℕ) (dur : ℚ) : HandoverManager × HandoverMetrics :=
  let use := strat.getD m.strategy
  let metrics : HandoverMetrics :=
    match stageRun use with
    | Except.ok packets =>
      { source_path := source_path, target_path := target_path, strategy := use,
        start_time := t0, end_time := t1, duration_ms := dur,
        packets_lost := packets, success := true, error_message := none }
    | Except.error e =>
      { source_path := source_path, target_path := target_path, strategy := use,
        start_time := t0, end_time := t1, duration_ms := dur,
        packets_lost := -1, success := false, error_message := some e }
  ({ m with handover_history := m.handover_history ++ [metrics] }, metrics)

/-- `get_average_handover_time`: mean duration over successful handovers,
0.0 with an empty history or none successful. -/
def getAverageHandoverTime (m : HandoverManager) : ℚ :=
  if m.handover_history = [] then 0
  else
    let ok := m.handover_history.filter (fun h => h.success)
    if ok = [] then 0
    else (ok.map (fun h => h.duration_ms)).sum / ok.length

/-- `get_handover_success_rate`: 100.0 with an empty history, otherwise
the successful fraction as a percentage. -/
def getHandoverSuccessRate (m : HandoverManager) : ℚ :=
  if m.handover_history = [] then 100
  else ((m.handover_history.filter (fun h => h.success)).length : ℚ)
       / m.handover_history.length * 100

/-- `meets_target_latency`: average duration within the 100 ms target. -/
def meetsTargetLatency (m : HandoverManager) : Bool :=
  decide (getAverageHandoverTime m ≤ 100)

/-- The statistics dict returned by `HandoverManager.get_statistics`. -/
structure HandoverStats where
  total_handovers : ℕ
  successful : ℕ
  failed : ℕ
  average_duration_ms : ℚ
  min_duration_ms : ℚ
  max_duration_ms : ℚ
  total_packets_lost : ℤ
  meets_target : Bool
  deriving DecidableEq, Repr

/-- Python `min`/`max` over a duration list (only applied to nonempty
lists; 0 stands in for the unreached empty case). -/
def listMinQ : List ℚ → ℚ
  | [] => 0
  | x :: xs => xs.foldl min x

def listMaxQ : List ℚ → ℚ
  | [] => 0
  | x :: xs => xs.foldl max x

/-- `get_statistics`: the all-zero dict with `meets_target=True` on an
empty history, otherwise counts and duration aggregates over the
successful records. -/
def getStatistics (m : HandoverManager) : HandoverStats :=
  if m.handover_history = [] then
    { total_handovers := 0, successful := 0, failed := 0,
      average_duration_ms := 0, min_duration_ms := 0, max_duration_ms := 0,
      total_packets_lost := 0, meets_target := true }
  else
    let ok := m.handover_history.filter (fun h => h.success)
    let durations := ok.map (fun h => h.duration_ms)
    { total_handovers := m.handover_history.length,
      successful := ok.length,
      failed := m.handover_history.length - ok.length,
      average_duration_ms := if durations = [] then 0
                             else durations.sum / durations.length,
      min_duration_ms := if durations = [] then 0 else listMinQ durations,
      max_duration_ms := if durations = [] then 0 else listMaxQ durations,
      total_packets_lost := (ok.map (fun h => h.packets_lost)).sum,
      meets_target := meetsTargetLatency m }

/-! ## Derived predicates, operation alphabets and concrete scenarios -/

/-- Selection eligibility of one path (the filter of `_select_best_path`):
enabled and CONNECTED or DEGRADED. -/
def eligibleB (p : NetworkPath) : Bool :=
  p.enabled && (p.state == ConnectionState.connected
                || p.state == ConnectionState.degraded)

/-- The system is in global Offline (DDIL) mode. -/
def isOffline (s : DDILController) : Prop :=
  s.active_mode = some NetworkMode.offline

/-- Number of paths of the table named by `active_mode`. -/
def activeCount (s : DDILController) : ℕ :=
  (s.paths.filter (fun p => s.active_mode == some p.mode)).length

/-- The spec equivalence: Offline holds iff no enabled path is CONNECTED
or DEGRADED. -/
def offlineIffNoEligible (s : DDILController) : Prop :=
  isOffline s ↔ ∀ p ∈ s.paths, eligibleB p = false

/-- One externally triggered controller step: a monitoring cycle (with its
injected, possibly raising probe and clock), `force_handover`,
`enable_path` or `disable_path`. -/
inductive DDILOp
  | poll (probe : NetworkMode → Except String ProbeReading) (now : ℕ)
  | force (m : NetworkMode)
  | enable (m : NetworkMode)
  | disable (m : NetworkMode)

/-- Controller state after one step. -/
def applyDDILOp (s : DDILController) : DDILOp → DDILController
  | DDILOp.poll probe now => (monitorCycleE probe now s).1
  | DDILOp.force m => (forceHandover m s).1.1
  | DDILOp.enable m => enablePath m s
  | DDILOp.disable m => (disablePath m s).1

/-- Controller states reachable from a fresh controller by any sequence of
poll cycles, forced handovers and path toggles. -/
inductive DDILReachable : DDILController → Prop
  | init : DDILReachable ddilInit
  | step {s : DDILController} (op : DDILOp) :
      DDILReachable s → DDILReachable (applyDDILOp s op)

/-- A non-OFFLINE active mode always names an enabled path of the table. -/
def activeOk (s : DDILController) : Prop :=
  ∀ m, s.active_mode = some m → m = NetworkMode.offline ∨
    ∃ p ∈ s.paths, p.mode = m ∧ p.enabled = true

/-- Structural controller invariant: the path table always holds exactly
the five configured modes in construction order, and a non-OFFLINE active
mode always names an enabled path of the table. -/
def ddilInv (s : DDILController) : Prop :=
  (s.paths.map (fun p => p.mode) = pathModes) ∧ activeOk s

/-- Cache accounting invariant: the used-bytes counter is the exact sum of
the current entries' sizes and stays within capacity. -/
def cacheInv (c : CacheManager) : Prop :=
  c.used_bytes = sumSizes c.entries ∧
  c.used_bytes ≤ (c.capacity_bytes : ℤ)

/-- Scenario path table of the spec: wired priority 1 currently FAILING,
cellular priority 2 CONNECTED at 10 ms, satellite priority 3 CONNECTED at
40 ms. -/
def cellPathC2 : NetworkPath :=
  { mode := NetworkMode.cellular5g, state := ConnectionState.connected,
    latency_ms := 10, priority := 2 }

def sC2 : DDILController :=
  { paths := [
      { mode := NetworkMode.wired, state := ConnectionState.failing, priority := 1 },
      cellPathC2,
      { mode := NetworkMode.satellite, state := ConnectionState.connected,
        latency_ms := 40, priority := 3 }],
    active_mode := none }

/-- A probe that always answers with healthy metrics (signal above the
-95 dBm floor). -/
def probeOk : NetworkMode → Except String ProbeReading :=
  fun _ => Except.ok
    { latency_ms := 5, bandwidth_mbps := 100,
      signal_strength_dbm := -60, packet_loss_raw := 1 }

/-- A probe that raises on the satellite path (the first path polled) and
answers healthy metrics elsewhere. -/
def probeFailSat : NetworkMode → Except String ProbeReading :=
  fun m => if m == NetworkMode.satellite then Except.error "probe timeout"
           else Except.ok
             { latency_ms := 5, bandwidth_mbps := 100,
               signal_strength_dbm := -60, packet_loss_raw := 1 }

/-- Fresh controller with every path disabled (five `disable_path` calls;
none re-selects because nothing was active). -/
def sAllDisabled : DDILController :=
  (disablePath NetworkMode.wired
    (disablePath NetworkMode.hfRadio
      (disablePath NetworkMode.loraMesh
        (disablePath NetworkMode.cellular5g
          (disablePath NetworkMode.satellite ddilInit).1).1).1).1).1

/-- The all-disabled controller after one poll cycle: it has entered DDIL
mode. -/
def sOffline : DDILController := (monitorCycleE probeOk 0 sAllDisabled).1

/-- A healthy probe reading, as a total (never raising) probe. -/
def readingOk : ProbeReading :=
  { latency_ms := 5, bandwidth_mbps := 100,
    signal_strength_dbm := -60, packet_loss_raw := 1 }

def probeTotal : NetworkMode → ProbeReading := fun _ => readingOk

/-! ## Generic facts about the stable-sort head -/

theorem foldlMin_spec {α : Type _} (lt : α → α → Bool)
    (htrans : ∀ a b c, lt a b = true → lt b c = true → lt a c = true)
    (hirrefl : ∀ a, lt a a = false) :
    ∀ (l : List α) (acc : α),
      (l.foldl (fun a y => if lt y a then y else a) acc = acc ∨
        (l.foldl (fun a y => if lt y a then y else a) acc ∈ l ∧
         lt (l.foldl (fun a y => if lt y a then y else a) acc) acc = true)) ∧
      ∀ y ∈ l, lt y (l.foldl (fun a y => if lt y a then y else a) acc) = false := by
  intro l
  induction l with
  | nil => intro acc; exact ⟨Or.inl rfl, by simp⟩
  | cons x xs ih =>
    intro acc
    simp only [List.foldl_cons]
    by_cases hx : lt x acc = true
    · rw [if_pos hx]
      obtain ⟨h1, h2⟩ := ih x
      constructor
      · rcases h1 with h1 | ⟨h1a, h1b⟩
        · exact Or.inr ⟨by rw [h1]; exact List.mem_cons_self x xs, by rw [h1]; exact hx⟩
        · exact Or.inr ⟨List.mem_cons_of_mem x h1a, htrans _ _ _ h1b hx⟩
      · intro y hy
        rcases List.mem_cons.mp hy with rfl | hy2
        · rcases h1 with h1 | ⟨_, h1b⟩
          · rw [h1]; exact hirrefl y
          · cases hxy : lt y (List.foldl (fun a z => if lt z a then z else a) y xs)
            · rfl
            · exact absurd (htrans _ _ _ hxy h1b) (by rw [hirrefl]; simp)
        · exact h2 y hy2
    · rw [if_neg hx]
      obtain ⟨h1, h2⟩ := ih acc
      constructor
      · rcases h1 with h1 | ⟨h1a, h1b⟩
        · exact Or.inl h1
        · exact Or.inr ⟨List.mem_cons_of_mem x h1a, h1b⟩
      · intro y hy
        rcases List.mem_cons.mp hy with rfl | hy2
        · rcases h1 with h1 | ⟨_, h1b⟩
          · rw [h1]; exact Bool.eq_false_iff.mpr hx
          · cases hxy : lt y (List.foldl (fun a z => if lt z a then z else a) acc xs)
            · rfl
            · exact absurd (htrans _ _ _ hxy h1b) hx
        · exact h2 y hy2

theorem firstMinBy_mem_min {α : Type _} (lt : α → α → Bool)
    (htrans : ∀ a b c, lt a b = true → lt b c = true → lt a c = true)
    (hirrefl : ∀ a, lt a a = false) (l : List α) (r : α)
    (h : firstMinBy lt l = some r) : r ∈ l ∧ ∀ y ∈ l, lt y r = false := by
  cases l with
  | nil => simp [firstMinBy] at h
  | cons x xs =>
    simp only [firstMinBy, Option.some.injEq] at h
    obtain ⟨h1, h2⟩ := foldlMin_spec lt htrans hirrefl xs x
    rw [h] at h1 h2
    constructor
    · rcases h1 with h1 | ⟨h1a, _⟩
      · rw [h1]; exact List.mem_cons_self x xs
      · exact List.mem_cons_of_mem x h1a
    · intro y hy
      rcases List.mem_cons.mp hy with rfl | hy2
      · rcases h1 with h1 | ⟨_, h1b⟩
        · rw [h1]; exact hirrefl y
        · cases hxy : lt y r
          · rfl
          · exact absurd (htrans _ _ _ hxy h1b) (by rw [hirrefl]; simp)
      · exact h2 y hy2

theorem firstMinBy_isSome {α : Type _} (lt : α → α → Bool) (l : List α)
    (h : l ≠ []) : (firstMinBy lt l).isSome = true := by
  cases l with
  | nil => exact absurd rfl h
  | cons x xs => rfl

/-! ## Transitivity and irreflexivity of the two sort keys -/

theorem ltSelKey_trans (a b c : NetworkPath) (hab : ltSelKey a b = true)
    (hbc : ltSelKey b c = true) : ltSelKey a c = true := by
  simp only [ltSelKey, Bool.or_eq_true, Bool.and_eq_true, decide_eq_true_eq,
    beq_iff_eq] at hab hbc ⊢
  rcases hab with h1 | ⟨h1, h2⟩ <;> rcases hbc with h3 | ⟨h3, h4⟩
  · exact Or.inl (h1.trans h3)
  · exact Or.inl (h3 ▸ h1)
  · exact Or.inl (h1 ▸ h3)
  · exact Or.inr ⟨h1.trans h3, h2.trans h4⟩

theorem ltSelKey_irrefl (a : NetworkPath) : ltSelKey a a = false := by
  simp [ltSelKey]

theorem ltEvictKey_trans (a b c : CacheEntry) (hab : ltEvictKey a b = true)
    (hbc : ltEvictKey b c = true) : ltEvictKey a c = true := by
  simp only [ltEvictKey, Bool.or_eq_true, Bool.and_eq_true, decide_eq_true_eq,
    beq_iff_eq] at hab hbc ⊢
  rcases hab with h1 | ⟨h1, h2⟩ <;> rcases hbc with h3 | ⟨h3, h4⟩
  · exact Or.inl (h3.trans h1)
  · exact Or.inl (h3 ▸ h1)
  · exact Or.inl (h1 ▸ h3)
  · exact Or.inr ⟨h1.trans h3, h2.trans h4⟩

theorem ltEvictKey_irrefl (a : CacheEntry) : ltEvictKey a a = false := by
  simp [ltEvictKey]

/-- The head of the non-strict version of the selection key order, derived
from `ltSelKey q best = false`. -/
theorem ltSelKey_false_le (q best : NetworkPath) (h : ltSelKey q best = false) :
    best.priority < q.priority ∨
    (best.priority = q.priority ∧ best.latency_ms ≤ q.latency_ms) := by
  rcases Nat.lt_trichotomy best.priority q.priority with hp | hp | hp
  · exact Or.inl hp
  · refine Or.inr ⟨hp, ?_⟩
    by_contra hl
    have : ltSelKey q best = true := by
      simp only [ltSelKey, Bool.or_eq_true, Bool.and_eq_true, decide_eq_true_eq,
        beq_iff_eq]
      exact Or.inr ⟨hp.symm, lt_of_not_le hl⟩
    rw [h] at this; cases this
  · exfalso
    have : ltSelKey q best = true := by
      simp only [ltSelKey, Bool.or_eq_true, decide_eq_true_eq]
      exact Or.inl hp
    rw [h] at this; cases this

/-- Claim C2: among enabled CONNECTED/DEGRADED paths, `_select_best_path`
always picks a path whose `(priority, latency)` key is minimal — lowest
priority number first, ties broken by lowest latency — and in the spec
scenario (wired prio 1 FAILING, cellular prio 2 CONNECTED 10 ms, satellite
prio 3 CONNECTED 40 ms) it selects and activates cellular.  Selection is a
pure function of the path table, hence deterministic. -/
theorem select_best_path_lowest_priority_then_latency :
    (∀ (s : DDILController) (best : NetworkPath),
        firstMinBy ltSelKey (availablePaths s) = some best →
        best ∈ availablePaths s ∧
        ∀ q ∈ availablePaths s,
          best.priority < q.priority ∨
          (best.priority = q.priority ∧ best.latency_ms ≤ q.latency_ms)) ∧
    (selectBestPath sC2).1.active_mode = some NetworkMode.cellular5g := by
  constructor
  · intro s best h
    obtain ⟨hmem, hmin⟩ := firstMinBy_mem_min ltSelKey ltSelKey_trans
      ltSelKey_irrefl _ _ h
    exact ⟨hmem, fun q hq => ltSelKey_false_le q best (hmin q hq)⟩
  · decide

/-! ## Cache accounting lemmas -/

theorem sumSizes_cons (e : CacheEntry) (l : List CacheEntry) :
    sumSizes (e :: l) = (e.size_bytes : ℤ) + sumSizes l := by
  simp [sumSizes]

theorem sumSizes_append (l1 l2 : List CacheEntry) :
    sumSizes (l1 ++ l2) = sumSizes l1 + sumSizes l2 := by
  simp [sumSizes]

theorem sumSizes_eraseP (k : String) :
    ∀ (l : List CacheEntry) (e : CacheEntry),
      l.find? (fun x => x.key == k) = some e →
      sumSizes (l.eraseP (fun x => x.key == k)) = sumSizes l - (e.size_bytes : ℤ) := by
  intro l
  induction l with
  | nil => intro e h; simp at h
  | cons x xs ih =>
    intro e h
    by_cases hx : (x.key == k) = true
    · have hf : List.find? (fun x => x.key == k) (x :: xs) = some x :=
        List.find?_cons_of_pos xs hx
      have he : List.eraseP (fun x => x.key == k) (x :: xs) = xs :=
        List.eraseP_cons_of_pos hx
      rw [hf, Option.some.injEq] at h
      rw [he, ← h, sumSizes_cons]
      ring
    · have hf : List.find? (fun x => x.key == k) (x :: xs) =
          List.find? (fun x => x.key == k) xs :=
        List.find?_cons_of_neg xs hx
      have he : List.eraseP (fun x => x.key == k) (x :: xs) =
          x :: List.eraseP (fun x => x.key == k) xs :=
        List.eraseP_cons_of_neg hx
      rw [hf] at h
      rw [he, sumSizes_cons, sumSizes_cons, ih e h]
      ring

/-- Witness for C2 at the spec scenario: the cellular path is eligible and
has the minimal selection key there. -/
theorem select_best_path_witness :
    cellPathC2 ∈ availablePaths sC2 ∧
    ∀ q ∈ availablePaths sC2,
      cellPathC2.priority < q.priority ∨
      (cellPathC2.priority = q.priority ∧ cellPathC2.latency_ms ≤ q.latency_ms) :=
  select_best_path_lowest_priority_then_latency.1 sC2 cellPathC2 (by decide)

/-- The non-strict version of the eviction key order, derived from
`ltEvictKey f e = false`. -/
theorem ltEvictKey_false_le (f e : CacheEntry) (h : ltEvictKey f e = false) :
    f.priority.val < e.priority.val ∨
    (f.priority.val = e.priority.val ∧ e.accessed_at ≤ f.accessed_at) := by
  rcases Nat.lt_trichotomy f.priority.val e.priority.val with hp | hp | hp
  · exact Or.inl hp
  · refine Or.inr ⟨hp, ?_⟩
    by_contra hl
    have : ltEvictKey f e = true := by
      simp only [ltEvictKey, Bool.or_eq_true, Bool.and_eq_true, decide_eq_true_eq,
        beq_iff_eq]
      exact Or.inr ⟨hp, lt_of_not_le hl⟩
    rw [h] at this; cases this
  · exfalso
    have : ltEvictKey f e = true := by
      simp only [ltEvictKey, Bool.or_eq_true, decide_eq_true_eq]
      exact Or.inl hp
    rw [h] at this; cases this

/-- Claim C5: a single eviction step picks exactly the head of the
ordering that sorts the non-CRITICAL entries by priority descending (the
larger numeric `.value`, i.e. the least important, first) and access time
ascending: the target is a candidate, its key is minimal in that order
among all candidates, a target exists whenever a non-CRITICAL entry does,
and under tie-freedom any candidate minimal in the order is the target. -/
theorem evict_target_head_of_order :
    (∀ (c : CacheManager) (e : CacheEntry),
        evictTarget c = some e →
        e ∈ evictCandidates c ∧
        ∀ f ∈ evictCandidates c,
          f.priority.val < e.priority.val ∨
          (f.priority.val = e.priority.val ∧ e.accessed_at ≤ f.accessed_at)) ∧
    (∀ c : CacheManager, evictCandidates c ≠ [] → (evictTarget c).isSome = true) ∧
    (∀ (c : CacheManager) (e f : CacheEntry),
        evictTarget c = some e → f ∈ evictCandidates c →
        (∀ g ∈ evictCandidates c, ltEvictKey g f = false) →
        (∀ g1 g2, g1 ∈ evictCandidates c → g2 ∈ evictCandidates c →
          g1.priority.val = g2.priority.val → g1.accessed_at = g2.accessed_at →
          g1 = g2) →
        f = e) := by
  refine ⟨?_, ?_, ?_⟩
  · intro c e h
    obtain ⟨hmem, hmin⟩ := firstMinBy_mem_min ltEvictKey ltEvictKey_trans
      ltEvictKey_irrefl _ _ h
    exact ⟨hmem, fun f hf => ltEvictKey_false_le f e (hmin f hf)⟩
  · intro c h
    exact firstMinBy_isSome ltEvictKey _ h
  · intro c e f he hf hfmin hnotie
    obtain ⟨hemem, hemin⟩ := firstMinBy_mem_min ltEvictKey ltEvictKey_trans
      ltEvictKey_irrefl _ _ he
    have h1 := hfmin e hemem
    have h2 := hemin f hf
    rcases ltEvictKey_false_le e f h1 with hp1 | ⟨hp1, ha1⟩ <;>
      rcases ltEvictKey_false_le f e h2 with hp2 | ⟨hp2, ha2⟩
    · exact absurd hp2 (Nat.lt_asymm hp1)
    · exact absurd hp1 (by rw [hp2]; exact Nat.lt_irrefl _)
    · exact absurd hp2 (by rw [hp1]; exact Nat.lt_irrefl _)
    · exact hnotie f e hf hemem hp2 (Nat.le_antisymm ha1 ha2)

/-- Witness for C5: a concrete two-entry cache (one LOW entry accessed at
time 1, one NORMAL entry accessed at time 0) whose eviction target is the
LOW entry. -/
theorem evict_target_witness :
    ({ key := "b", size_bytes := 2, priority := CachePriority.low,
       created_at := 0, accessed_at := 1, expires_at := none,
       source := "s", checksum := "", metadata := [] } : CacheEntry) ∈
      evictCandidates
        { capacity_bytes := 100,
          entries := [
            { key := "a", size_bytes := 1, priority := CachePriority.normal,
              created_at := 0, accessed_at := 0, expires_at := none,
              source := "s", checksum := "", metadata := [] },
            { key := "b", size_bytes := 2, priority := CachePriority.low,
              created_at := 0, accessed_at := 1, expires_at := none,
              source := "s", checksum := "", metadata := [] }] } ∧
    ∀ f ∈ evictCandidates
        { capacity_bytes := 100,
          entries := [
            { key := "a", size_bytes := 1, priority := CachePriority.normal,
              created_at := 0, accessed_at := 0, expires_at := none,
              source := "s", checksum := "", metadata := [] },
            { key := "b", size_bytes := 2, priority := CachePriority.low,
              created_at := 0, accessed_at := 1, expires_at := none,
              source := "s", checksum := "", metadata := [] }] },
      f.priority.val < CachePriority.low.val ∨
      (f.priority.val = CachePriority.low.val ∧ 1 ≤ f.accessed_at) :=
  evict_target_head_of_order.1 _ _ (by decide)

/-- Claim C8: when the selected strategy's stages raise, `execute_handover`
still returns (rather than raising) a record with `success=False`,
`packets_lost=-1` and the error message captured, and appends that record
to the handover history. -/
theorem handover_failure_recorded (m : HandoverManager) (src tgt : String)
    (strat : Option HandoverStrategy)
    (stageRun : HandoverStrategy → Except String ℤ)
    (t0 t1 : ℕ) (dur : ℚ) (e : String)
    (herr : stageRun (strat.getD m.strategy) = Except.error e) :
    (executeHandover m src tgt strat stageRun t0 t1 dur).2.success = false ∧
    (executeHandover m src tgt strat stageRun t0 t1 dur).2.packets_lost = -1 ∧
    (executeHandover m src tgt strat stageRun t0 t1 dur).2.error_message = some e ∧
    (executeHandover m src tgt strat stageRun t0 t1 dur).1.handover_history =
      m.handover_history ++ [(executeHandover m src tgt strat stageRun t0 t1 dur).2] := by
  simp [executeHandover, herr]

/-- Witness for C8: a concrete failing stage run. -/
theorem handover_failure_recorded_witness :
    (executeHandover handoverInit "cellular_5g" "satellite" none
        (fun _ => Except.error "stage failure") 0 1 3).2.success = false ∧
    (executeHandover handoverInit "cellular_5g" "satellite" none
        (fun _ => Except.error "stage failure") 0 1 3).2.packets_lost = -1 ∧
    (executeHandover handoverInit "cellular_5g" "satellite" none
        (fun _ => Except.error "stage failure") 0 1 3).2.error_message =
      some "stage failure" ∧
    (executeHandover handoverInit "cellular_5g" "satellite" none
        (fun _ => Except.error "stage failure") 0 1 3).1.handover_history =
      handoverInit.handover_history ++
        [(executeHandover handoverInit "cellular_5g" "satellite" none
            (fun _ => Except.error "stage failure") 0 1 3).2] :=
  handover_failure_recorded handoverInit "cellular_5g" "satellite" none
    (fun _ => Except.error "stage failure") 0 1 3 "stage failure" rfl

/-! ## removeEntry and eviction lemmas -/

theorem removeEntry_none (k : String) (c : CacheManager)
    (h : c.entries.find? (fun e => e.key == k) = none) :
    (removeEntry k c).1 = c := by
  simp [removeEntry, h]

theorem removeEntry_some (k : String) (c : CacheManager) (e : CacheEntry)
    (h : c.entries.find? (fun e => e.key == k) = some e) :
    (removeEntry k c).1 =
      { c with
        entries := c.entries.eraseP (fun x => x.key == k),
        used_bytes := c.used_bytes - (e.size_bytes : ℤ) } := by
  simp [removeEntry, h]

theorem removeEntry_capacity (k : String) (c : CacheManager) :
    (removeEntry k c).1.capacity_bytes = c.capacity_bytes := by
  cases h : c.entries.find? (fun e => e.key == k) with
  | none => rw [removeEntry_none k c h]
  | some e => rw [removeEntry_some k c e h]

theorem removeEntry_sublist (k : String) (c : CacheManager) :
    List.Sublist (removeEntry k c).1.entries c.entries := by
  cases h : c.entries.find? (fun e => e.key == k) with
  | none => rw [removeEntry_none k c h]
  | some e => rw [removeEntry_some k c e h]; exact List.eraseP_sublist _

theorem removeEntry_used_le (k : String) (c : CacheManager) :
    (removeEntry k c).1.used_bytes ≤ c.used_bytes := by
  cases h : c.entries.find? (fun e => e.key == k) with
  | none => rw [removeEntry_none k c h]
  | some e =>
    rw [removeEntry_some k c e h]
    show c.used_bytes - (e.size_bytes : ℤ) ≤ c.used_bytes
    exact sub_le_self _ (Int.ofNat_nonneg _)

theorem removeEntry_sum (k : String) (c : CacheManager)
    (h : c.used_bytes = sumSizes c.entries) :
    (removeEntry k c).1.used_bytes = sumSizes (removeEntry k c).1.entries := by
  cases hf : c.entries.find? (fun e => e.key == k) with
  | none => rw [removeEntry_none k c hf]; exact h
  | some e =>
    rw [removeEntry_some k c e hf]
    show c.used_bytes - (e.size_bytes : ℤ) =
      sumSizes (c.entries.eraseP (fun x => x.key == k))
    rw [sumSizes_eraseP k c.entries e hf, h]

theorem evict_none (c : CacheManager) (h : evictTarget c = none) :
    evictLowestPriority c = (c, false) := by
  simp [evictLowestPriority, h]

theorem evict_some (c : CacheManager) (e : CacheEntry) (h : evictTarget c = some e) :
    evictLowestPriority c =
      ({ (removeEntry e.key c).1 with
         evictions := (removeEntry e.key c).1.evictions + 1 }, true) := by
  simp [evictLowestPriority, h]

theorem evict_capacity (c : CacheManager) :
    (evictLowestPriority c).1.capacity_bytes = c.capacity_bytes := by
  cases h : evictTarget c with
  | none => rw [evict_none c h]
  | some e => rw [evict_some c e h]; exact removeEntry_capacity e.key c

theorem evict_sublist (c : CacheManager) :
    List.Sublist (evictLowestPriority c).1.entries c.entries := by
  cases h : evictTarget c with
  | none => rw [evict_none c h]
  | some e => rw [evict_some c e h]; exact removeEntry_sublist e.key c

theorem evict_used_le (c : CacheManager) :
    (evictLowestPriority c).1.used_bytes ≤ c.used_bytes := by
  cases h : evictTarget c with
  | none => rw [evict_none c h]
  | some e => rw [evict_some c e h]; exact removeEntry_used_le e.key c

theorem evict_sum (c : CacheManager) (h : c.used_bytes = sumSizes c.entries) :
    (evictLowestPriority c).1.used_bytes =
      sumSizes (evictLowestPriority c).1.entries := by
  cases hf : evictTarget c with
  | none => rw [evict_none c hf]; exact h
  | some e => rw [evict_some c e hf]; exact removeEntry_sum e.key c h

theorem firstMinBy_none {α : Type _} (lt : α → α → Bool) (l : List α)
    (h : firstMinBy lt l = none) : l = [] := by
  cases l with
  | nil => rfl
  | cons x xs => simp [firstMinBy] at h

theorem evict_false (c : CacheManager) (h : (evictLowestPriority c).2 = false) :
    (evictLowestPriority c).1 = c ∧
    ∀ e ∈ c.entries, e.priority = CachePriority.critical := by
  cases hf : evictTarget c with
  | none =>
    refine ⟨by rw [evict_none c hf], ?_⟩
    have hcand : evictCandidates c = [] := firstMinBy_none ltEvictKey _ hf
    intro e he
    have := (List.filter_eq_nil_iff.mp hcand) e he
    simpa using this
  | some e => rw [evict_some c e hf] at h; cases h

theorem evict_length (c : CacheManager) (h : (evictLowestPriority c).2 = true) :
    (evictLowestPriority c).1.entries.length + 1 = c.entries.length := by
  cases hf : evictTarget c with
  | none => rw [evict_none c hf] at h; cases h
  | some e =>
    rw [evict_some c e hf]
    have hmem : e ∈ evictCandidates c :=
      (firstMinBy_mem_min ltEvictKey ltEvictKey_trans ltEvictKey_irrefl _ _ hf).1
    have he : e ∈ c.entries := (List.mem_filter.mp hmem).1
    have hself : (fun x : CacheEntry => x.key == e.key) e = true := by simp
    have hsome : (c.entries.find? (fun x => x.key == e.key)).isSome := by
      rw [List.find?_isSome]
      exact ⟨e, he, hself⟩
    obtain ⟨b, hb⟩ := Option.isSome_iff_exists.mp hsome
    rw [removeEntry_some e.key c b hb]
    show (c.entries.eraseP (fun x => x.key == e.key)).length + 1 =
      c.entries.length
    have hbmem : b ∈ c.entries := List.mem_of_find?_eq_some hb
    have hbp : (b.key == e.key) = true :=
      @List.find?_some _ (fun x : CacheEntry => x.key == e.key) b c.entries hb
    rw [@List.length_eraseP_of_mem _ c.entries b
      (fun x : CacheEntry => x.key == e.key) hbmem hbp]
    have : 0 < c.entries.length := List.length_pos_of_mem hbmem
    omega

theorem evict_critical_mem (c : CacheManager)
    (hnd : (c.entries.map (fun e => e.key)).Nodup) (f : CacheEntry)
    (hf : f ∈ c.entries) (hcrit : f.priority = CachePriority.critical) :
    f ∈ (evictLowestPriority c).1.entries := by
  cases ht : evictTarget c with
  | none => rw [evict_none c ht]; exact hf
  | some e =>
    rw [evict_some c e ht]
    have hmem : e ∈ evictCandidates c :=
      (firstMinBy_mem_min ltEvictKey ltEvictKey_trans ltEvictKey_irrefl _ _ ht).1
    have hep := (List.mem_filter.mp hmem).2
    have hecrit : e.priority ≠ CachePriority.critical := by
      simpa using hep
    have hne : f ≠ e := fun hfe => hecrit (hfe ▸ hcrit)
    have hkey : f.key ≠ e.key := fun hk =>
      hne (List.inj_on_of_nodup_map hnd hf (List.mem_filter.mp hmem).1 hk)
    cases hfind : c.entries.find? (fun x => x.key == e.key) with
    | none => rw [removeEntry_none e.key c hfind]; exact hf
    | some b =>
      rw [removeEntry_some e.key c b hfind]
      show f ∈ c.entries.eraseP (fun x => x.key == e.key)
      have hneg : ¬ ((f.key == e.key) = true) := by
        simp only [beq_iff_eq]
        exact hkey
      exact (@List.mem_eraseP_of_neg _ (fun x : CacheEntry => x.key == e.key)
        f c.entries hneg).mpr hf

/-! ## Eviction-loop lemmas -/

theorem evictLoop_pres (sz : ℕ) : ∀ (fuel : ℕ) (c : CacheManager),
    (evictLoop sz fuel c).1.capacity_bytes = c.capacity_bytes ∧
    List.Sublist (evictLoop sz fuel c).1.entries c.entries ∧
    (evictLoop sz fuel c).1.used_bytes ≤ c.used_bytes ∧
    (c.used_bytes = sumSizes c.entries →
      (evictLoop sz fuel c).1.used_bytes =
        sumSizes (evictLoop sz fuel c).1.entries) := by
  intro fuel
  induction fuel with
  | zero => intro c; exact ⟨rfl, List.Sublist.refl _, le_refl _, fun h => h⟩
  | succ n ih =>
    intro c
    show (evictLoop sz (n + 1) c).1.capacity_bytes = c.capacity_bytes ∧ _
    rw [evictLoop]
    by_cases hc : c.used_bytes + (sz : ℤ) > (c.capacity_bytes : ℤ)
    · rw [if_pos hc]
      by_cases hs : (evictLowestPriority c).2 = true
      · rw [if_pos hs]
        obtain ⟨ih1, ih2, ih3, ih4⟩ := ih (evictLowestPriority c).1
        exact ⟨ih1.trans (evict_capacity c),
          ih2.trans (evict_sublist c),
          ih3.trans (evict_used_le c),
          fun h => ih4 (evict_sum c h)⟩
      · rw [if_neg hs]
        exact ⟨evict_capacity c, evict_sublist c, evict_used_le c,
          fun h => evict_sum c h⟩
    · rw [if_neg hc]
      exact ⟨rfl, List.Sublist.refl _, le_refl _, fun h => h⟩

theorem evictLoop_true_cap (sz : ℕ) : ∀ (fuel : ℕ) (c : CacheManager),
    (evictLoop sz fuel c).2 = true →
    (evictLoop sz fuel c).1.used_bytes + (sz : ℤ) ≤
      ((evictLoop sz fuel c).1.capacity_bytes : ℤ) := by
  intro fuel
  induction fuel with
  | zero => intro c h; cases h
  | succ n ih =>
    intro c
    rw [evictLoop]
    by_cases hc : c.used_bytes + (sz : ℤ) > (c.capacity_bytes : ℤ)
    · rw [if_pos hc]
      by_cases hs : (evictLowestPriority c).2 = true
      · rw [if_pos hs]; exact ih (evictLowestPriority c).1
      · rw [if_neg hs]; intro h; cases h
    · rw [if_neg hc]
      intro _
      exact le_of_not_lt hc

theorem evictLoop_false_spec (sz : ℕ) : ∀ (fuel : ℕ) (c : CacheManager),
    c.entries.length < fuel →
    (evictLoop sz fuel c).2 = false →
    (∀ e ∈ (evictLoop sz fuel c).1.entries,
      e.priority = CachePriority.critical) ∧
    (evictLoop sz fuel c).1.used_bytes + (sz : ℤ) >
      ((evictLoop sz fuel c).1.capacity_bytes : ℤ) := by
  intro fuel
  induction fuel with
  | zero => intro c hlen; omega
  | succ n ih =>
    intro c hlen
    rw [evictLoop]
    by_cases hc : c.used_bytes + (sz : ℤ) > (c.capacity_bytes : ℤ)
    · rw [if_pos hc]
      by_cases hs : (evictLowestPriority c).2 = true
      · rw [if_pos hs]
        have hl := evict_length c hs
        exact ih (evictLowestPriority c).1 (by omega)
      · rw [if_neg hs]
        intro _
        obtain ⟨heq, hall⟩ := evict_false c (Bool.eq_false_iff.mpr hs)
        rw [heq]
        exact ⟨hall, hc⟩
    · rw [if_neg hc]
      intro h; cases h

theorem evictLoop_critical_mem (sz : ℕ) : ∀ (fuel : ℕ) (c : CacheManager),
    (c.entries.map (fun e => e.key)).Nodup →
    ∀ f ∈ c.entries, f.priority = CachePriority.critical →
    f ∈ (evictLoop sz fuel c).1.entries := by
  intro fuel
  induction fuel with
  | zero => intro c _ f hf _; exact hf
  | succ n ih =>
    intro c hnd f hf hcrit
    rw [evictLoop]
    by_cases hc : c.used_bytes + (sz : ℤ) > (c.capacity_bytes : ℤ)
    · rw [if_pos hc]
      by_cases hs : (evictLowestPriority c).2 = true
      · rw [if_pos hs]
        have hnd2 : ((evictLowestPriority c).1.entries.map
            (fun e => e.key)).Nodup :=
          hnd.sublist ((evict_sublist c).map _)
        exact ih (evictLowestPriority c).1 hnd2 f
          (evict_critical_mem c hnd f hf hcrit) hcrit
      · rw [if_neg hs]
        rw [(evict_false c (Bool.eq_false_iff.mpr hs)).1]
        exact hf
    · rw [if_neg hc]
      exact hf

/-! ## Per-operation preservation of the cache accounting invariant -/

theorem put_false_shape (c : CacheManager) (k : String) (sz : ℕ) (src : String)
    (prio : CachePriority) (ttl : Option ℕ) (ck : String)
    (md : List (String × String)) (now : ℕ)
    (h : (evictLoop sz (c.entries.length + 1) c).2 = false) :
    c.put k sz src prio ttl ck md now =
      ((evictLoop sz (c.entries.length + 1) c).1, false) := by
  simp [CacheManager.put, h]

theorem put_true_shape (c : CacheManager) (k : String) (sz : ℕ) (src : String)
    (prio : CachePriority) (ttl : Option ℕ) (ck : String)
    (md : List (String × String)) (now : ℕ)
    (h : (evictLoop sz (c.entries.length + 1) c).2 = true) :
    c.put k sz src prio ttl ck md now =
      ({ (removeEntry k (evictLoop sz (c.entries.length + 1) c).1).1 with
         entries :=
           (removeEntry k (evictLoop sz (c.entries.length + 1) c).1).1.entries ++
             [{ key := k, size_bytes := sz, priority := prio, created_at := now,
                accessed_at := now, expires_at := expiresOf ttl now,
                source := src, checksum := ck, metadata := md }],
         used_bytes :=
           (removeEntry k (evictLoop sz (c.entries.length + 1) c).1).1.used_bytes
             + (sz : ℤ),
         prefetch_total :=
           if prio == CachePriority.prefetch then
             (removeEntry k
               (evictLoop sz (c.entries.length + 1) c).1).1.prefetch_total + 1
           else
             (removeEntry k
               (evictLoop sz (c.entries.length + 1) c).1).1.prefetch_total },
       true) := by
  simp [CacheManager.put, h]

theorem put_inv (c : CacheManager) (k : String) (sz : ℕ) (src : String)
    (prio : CachePriority) (ttl : Option ℕ) (ck : String)
    (md : List (String × String)) (now : ℕ) (h : cacheInv c) :
    cacheInv (c.put k sz src prio ttl ck md now).1 := by
  obtain ⟨h1, h2⟩ := h
  obtain ⟨hcap, hsub, hle, hsum⟩ := evictLoop_pres sz (c.entries.length + 1) c
  by_cases hl : (evictLoop sz (c.entries.length + 1) c).2 = true
  · rw [put_true_shape c k sz src prio ttl ck md now hl]
    have hsum1 := hsum h1
    have hsum2 := removeEntry_sum k _ hsum1
    have hle2 := removeEntry_used_le k (evictLoop sz (c.entries.length + 1) c).1
    have hcap2 := removeEntry_capacity k (evictLoop sz (c.entries.length + 1) c).1
    have htc := evictLoop_true_cap sz (c.entries.length + 1) c hl
    constructor
    · show (removeEntry k (evictLoop sz (c.entries.length + 1) c).1).1.used_bytes
        + (sz : ℤ) = sumSizes
          ((removeEntry k (evictLoop sz (c.entries.length + 1) c).1).1.entries ++
            [{ key := k, size_bytes := sz, priority := prio, created_at := now,
               accessed_at := now, expires_at := expiresOf ttl now,
               source := src, checksum := ck, metadata := md }])
      rw [sumSizes_append, hsum2]
      simp [sumSizes]
    · show (removeEntry k (evictLoop sz (c.entries.length + 1) c).1).1.used_bytes
        + (sz : ℤ) ≤
        ((removeEntry k
          (evictLoop sz (c.entries.length + 1) c).1).1.capacity_bytes : ℤ)
      rw [hcap2]
      linarith
  · rw [put_false_shape c k sz src prio ttl ck md now (Bool.eq_false_iff.mpr hl)]
    refine ⟨hsum h1, ?_⟩
    rw [hcap]
    exact hle.trans h2

theorem remove_inv (c : CacheManager) (k : String) (h : cacheInv c) :
    cacheInv (removeEntry k c).1 := by
  refine ⟨removeEntry_sum k c h.1, ?_⟩
  rw [removeEntry_capacity k c]
  exact (removeEntry_used_le k c).trans h.2

theorem sumSizes_touch (k : String) (now : ℕ) : ∀ l : List CacheEntry,
    sumSizes (l.map (fun e2 =>
      if e2.key == k then { e2 with accessed_at := now } else e2)) = sumSizes l := by
  intro l
  induction l with
  | nil => rfl
  | cons x xs ih =>
    simp only [List.map_cons, sumSizes_cons, ih]
    by_cases hx : (x.key == k) = true
    · rw [if_pos hx]
    · rw [if_neg hx]

theorem get_inv (c : CacheManager) (k : String) (now : ℕ) (h : cacheInv c) :
    cacheInv (c.get k now).1 := by
  obtain ⟨h1, h2⟩ := h
  cases hf : c.entries.find? (fun e => e.key == k) with
  | none =>
    simp only [CacheManager.get, hf]
    exact ⟨h1, h2⟩
  | some e =>
    by_cases hex : expiredB e now = true
    · simp only [CacheManager.get, hf, hex, if_true]
      exact remove_inv c k ⟨h1, h2⟩
    · simp only [CacheManager.get, hf, hex, Bool.false_eq_true, if_false]
      constructor
      · show c.used_bytes = sumSizes (c.entries.map (fun e2 =>
          if e2.key == k then { e2 with accessed_at := now } else e2))
        rw [sumSizes_touch]
        exact h1
      · exact h2

theorem foldl_remove_inv (ks : List String) : ∀ c : CacheManager, cacheInv c →
    cacheInv (ks.foldl (fun acc k => (removeEntry k acc).1) c) := by
  induction ks with
  | nil => intro c h; exact h
  | cons k ks ih =>
    intro c h
    exact ih _ (remove_inv c k h)

theorem clearExpired_inv (now : ℕ) (c : CacheManager) (h : cacheInv c) :
    cacheInv (clearExpired now c).1 :=
  foldl_remove_inv _ c h

theorem clearByPriority_inv (p : CachePriority) (c : CacheManager)
    (h : cacheInv c) : cacheInv (clearByPriority p c).1 :=
  foldl_remove_inv _ c h

theorem prefetch_inv (keys : List String) (src : String) (szEst : ℕ) (now : ℕ) :
    ∀ acc : CacheManager × ℕ, cacheInv acc.1 →
    cacheInv (keys.foldl (fun acc k =>
      if acc.1.entries.any (fun e => e.key == k) then acc
      else
        if ((acc.1.put k szEst src CachePriority.prefetch
              (some 24) "" [] now)).2 then
          ((acc.1.put k szEst src CachePriority.prefetch (some 24) "" [] now).1,
            acc.2 + 1)
        else
          ((acc.1.put k szEst src CachePriority.prefetch (some 24) "" [] now).1,
            acc.2)) acc).1 := by
  induction keys with
  | nil => intro acc h; exact h
  | cons k ks ih =>
    intro acc h
    simp only [List.foldl_cons]
    by_cases ha : acc.1.entries.any (fun e => e.key == k) = true
    · rw [if_pos ha]
      exact ih acc h
    · rw [if_neg ha]
      by_cases hp : (acc.1.put k szEst src CachePriority.prefetch
          (some 24) "" [] now).2 = true
      · rw [if_pos hp]
        exact ih _ (put_inv acc.1 k szEst src CachePriority.prefetch
          (some 24) "" [] now h)
      · rw [if_neg hp]
        exact ih _ (put_inv acc.1 k szEst src CachePriority.prefetch
          (some 24) "" [] now h)

theorem applyCacheOp_inv (c : CacheManager) (op : CacheOp) (h : cacheInv c) :
    cacheInv (applyCacheOp c op) := by
  cases op with
  | put k sz src prio ttl ck md now => exact put_inv c k sz src prio ttl ck md now h
  | get k now => exact get_inv c k now h
  | remove k => exact remove_inv c k h
  | clearExpired now => exact clearExpired_inv now c h
  | clearByPriority p => exact clearByPriority_inv p c h
  | prefetch ks src szEst now => exact prefetch_inv ks src szEst now (c, 0) h

/-- Claim C3: after any sequence of cache operations the used-bytes counter
equals the exact sum of the sizes of the entries currently present, and
that sum never exceeds the configured byte capacity. -/
theorem cache_used_equals_sum_and_bounded (cap : ℕ) (c : CacheManager)
    (h : CacheReachable cap c) :
    c.used_bytes = sumSizes c.entries ∧
    sumSizes c.entries ≤ (c.capacity_bytes : ℤ) := by
  have hinv : cacheInv c := by
    induction h with
    | init => exact ⟨rfl, by simp [cacheInit]⟩
    | step op hc ih => exact applyCacheOp_inv _ op ih
  exact ⟨hinv.1, hinv.1 ▸ hinv.2⟩

/-- Witness for C3: the invariant at a concrete reachable state (one put
into a fresh 1000-byte cache). -/
theorem cache_used_witness :
    (applyCacheOp (cacheInit 1000)
      (CacheOp.put "A" 600 "src" CachePriority.normal none "" [] 0)).used_bytes =
      sumSizes (applyCacheOp (cacheInit 1000)
        (CacheOp.put "A" 600 "src" CachePriority.normal none "" [] 0)).entries ∧
    sumSizes (applyCacheOp (cacheInit 1000)
        (CacheOp.put "A" 600 "src" CachePriority.normal none "" [] 0)).entries ≤
      ((applyCacheOp (cacheInit 1000)
        (CacheOp.put "A" 600 "src" CachePriority.normal none "" [] 0)).capacity_bytes : ℤ) :=
  cache_used_equals_sum_and_bounded 1000 _
    (CacheReachable.step _ CacheReachable.init)

/-- Claim C4: a `put` that cannot fit evicts only non-CRITICAL entries:
when it returns False every remaining entry is CRITICAL and the insertion
still does not fit; when it returns True the cache is within capacity; and
every CRITICAL entry under a different key survives the call — a CRITICAL
entry is never evicted to make room. -/
theorem put_never_evicts_critical (c : CacheManager) (k : String) (sz : ℕ)
    (src : String) (prio : CachePriority) (ttl : Option ℕ) (ck : String)
    (md : List (String × String)) (now : ℕ)
    (hnd : (c.entries.map (fun e => e.key)).Nodup) :
    ((c.put k sz src prio ttl ck md now).2 = false →
      (∀ e ∈ (c.put k sz src prio ttl ck md now).1.entries,
        e.priority = CachePriority.critical) ∧
      (c.put k sz src prio ttl ck md now).1.used_bytes + (sz : ℤ) >
        ((c.put k sz src prio ttl ck md now).1.capacity_bytes : ℤ)) ∧
    ((c.put k sz src prio ttl ck md now).2 = true →
      (c.put k sz src prio ttl ck md now).1.used_bytes ≤
        ((c.put k sz src prio ttl ck md now).1.capacity_bytes : ℤ)) ∧
    (∀ f ∈ c.entries, f.priority = CachePriority.critical → f.key ≠ k →
      f ∈ (c.put k sz src prio ttl ck md now).1.entries) := by
  by_cases hl : (evictLoop sz (c.entries.length + 1) c).2 = true
  · rw [put_true_shape c k sz src prio ttl ck md now hl]
    refine ⟨?_, ?_, ?_⟩
    · intro hcon
      exact absurd hcon (by simp)
    · intro _
      show (removeEntry k (evictLoop sz (c.entries.length + 1) c).1).1.used_bytes
        + (sz : ℤ) ≤
        ((removeEntry k
          (evictLoop sz (c.entries.length + 1) c).1).1.capacity_bytes : ℤ)
      have hle2 := removeEntry_used_le k (evictLoop sz (c.entries.length + 1) c).1
      have htc := evictLoop_true_cap sz (c.entries.length + 1) c hl
      rw [removeEntry_capacity k (evictLoop sz (c.entries.length + 1) c).1]
      linarith
    · intro f hf hcrit hkey
      show f ∈ (removeEntry k
        (evictLoop sz (c.entries.length + 1) c).1).1.entries ++ _
      refine List.mem_append_left _ ?_
      have hfl : f ∈ (evictLoop sz (c.entries.length + 1) c).1.entries :=
        evictLoop_critical_mem sz (c.entries.length + 1) c hnd f hf hcrit
      cases hfind : (evictLoop sz (c.entries.length + 1) c).1.entries.find?
          (fun e => e.key == k) with
      | none =>
        rw [removeEntry_none k _ hfind]
        exact hfl
      | some b =>
        rw [removeEntry_some k _ b hfind]
        show f ∈ (evictLoop sz
          (c.entries.length + 1) c).1.entries.eraseP (fun x => x.key == k)
        have hneg : ¬ ((f.key == k) = true) := by
          simp only [beq_iff_eq]
          exact hkey
        exact (@List.mem_eraseP_of_neg _ (fun x : CacheEntry => x.key == k)
          f _ hneg).mpr hfl
  · have hl2 : (evictLoop sz (c.entries.length + 1) c).2 = false :=
      Bool.eq_false_iff.mpr hl
    rw [put_false_shape c k sz src prio ttl ck md now hl2]
    obtain ⟨hall, hover⟩ := evictLoop_false_spec sz (c.entries.length + 1) c
      (by omega) hl2
    refine ⟨?_, ?_, ?_⟩
    · intro _
      exact ⟨hall, hover⟩
    · intro hcon
      exact absurd hcon (by simp)
    · intro f hf hcrit hkey
      exact evictLoop_critical_mem sz (c.entries.length + 1) c hnd f hf hcrit

/-- Witness for C4: a 100-byte cache holding one 50-byte CRITICAL entry;
an 80-byte put finds nothing evictable. -/
theorem put_never_evicts_critical_witness :
    ((((cacheInit 100).put "c" 50 "s" CachePriority.critical none "" [] 0).1.put
        "d" 80 "s" CachePriority.normal none "" [] 1).2 = false →
      (∀ e ∈ (((cacheInit 100).put "c" 50 "s" CachePriority.critical none ""
          [] 0).1.put "d" 80 "s" CachePriority.normal none "" [] 1).1.entries,
        e.priority = CachePriority.critical) ∧
      (((cacheInit 100).put "c" 50 "s" CachePriority.critical none ""
          [] 0).1.put "d" 80 "s" CachePriority.normal none "" [] 1).1.used_bytes
          + (80 : ℤ) >
        (((((cacheInit 100).put "c" 50 "s" CachePriority.critical none ""
          [] 0).1.put "d" 80 "s" CachePriority.normal none ""
          [] 1)).1.capacity_bytes : ℤ)) ∧
    ((((cacheInit 100).put "c" 50 "s" CachePriority.critical none "" [] 0).1.put
        "d" 80 "s" CachePriority.normal none "" [] 1).2 = true →
      (((cacheInit 100).put "c" 50 "s" CachePriority.critical none ""
          [] 0).1.put "d" 80 "s" CachePriority.normal none "" [] 1).1.used_bytes ≤
        (((((cacheInit 100).put "c" 50 "s" CachePriority.critical none ""
          [] 0).1.put "d" 80 "s" CachePriority.normal none ""
          [] 1)).1.capacity_bytes : ℤ)) ∧
    (∀ f ∈ ((cacheInit 100).put "c" 50 "s" CachePriority.critical none ""
        [] 0).1.entries,
      f.priority = CachePriority.critical → f.key ≠ "d" →
      f ∈ (((cacheInit 100).put "c" 50 "s" CachePriority.critical none ""
        [] 0).1.put "d" 80 "s" CachePriority.normal none "" [] 1).1.entries) :=
  put_never_evicts_critical _ "d" 80 "s" CachePriority.normal none "" [] 1
    (by decide)

/-! ## Key-uniqueness lemmas and the put/get round trip -/

theorem find?_key_eraseP_none (k : String) : ∀ l : List CacheEntry,
    (l.map (fun e => e.key)).Nodup →
    (l.eraseP (fun x => x.key == k)).find? (fun x => x.key == k) = none := by
  intro l
  induction l with
  | nil => intro _; rfl
  | cons x xs ih =>
    intro hnd
    simp only [List.map_cons, List.nodup_cons] at hnd
    obtain ⟨hx_notin, hnd2⟩ := hnd
    by_cases hx : (x.key == k) = true
    · have he : List.eraseP (fun x => x.key == k) (x :: xs) = xs :=
        List.eraseP_cons_of_pos hx
      rw [he]
      apply List.find?_eq_none.mpr
      intro e he2
      simp only [beq_iff_eq]
      intro hek
      apply hx_notin
      have hxk : x.key = k := by simpa using hx
      rw [hxk, ← hek]
      exact List.mem_map.mpr ⟨e, he2, rfl⟩
    · have he : List.eraseP (fun x => x.key == k) (x :: xs) =
          x :: xs.eraseP (fun x => x.key == k) :=
        List.eraseP_cons_of_neg hx
      rw [he]
      have hf : List.find? (fun x : CacheEntry => x.key == k)
          (x :: xs.eraseP (fun x => x.key == k)) =
          List.find? (fun x => x.key == k) (xs.eraseP (fun x => x.key == k)) :=
        List.find?_cons_of_neg _ hx
      rw [hf]
      exact ih hnd2

theorem removeEntry_find?_none (k : String) (c : CacheManager)
    (hnd : (c.entries.map (fun e => e.key)).Nodup) :
    (removeEntry k c).1.entries.find? (fun e => e.key == k) = none := by
  cases hf : c.entries.find? (fun e => e.key == k) with
  | none => rw [removeEntry_none k c hf]; exact hf
  | some e =>
    rw [removeEntry_some k c e hf]
    exact find?_key_eraseP_none k c.entries hnd

/-- Claim C9: a successful `put` followed immediately by a `get` of the
same key, at a time not past the TTL expiry, returns exactly the stored
entry — key, size, priority, source, checksum, metadata and creation and
expiry times unchanged — with only the access timestamp moved to the time
of the `get`. -/
theorem put_get_roundtrip (c : CacheManager) (k : String) (sz : ℕ)
    (src : String) (prio : CachePriority) (ttl : Option ℕ) (ck : String)
    (md : List (String × String)) (t0 t1 : ℕ)
    (hnd : (c.entries.map (fun e => e.key)).Nodup)
    (hok : (c.put k sz src prio ttl ck md t0).2 = true)
    (hexp : ∀ exp, expiresOf ttl t0 = some exp → t1 ≤ exp) :
    ((c.put k sz src prio ttl ck md t0).1.get k t1).2 =
      some { key := k, size_bytes := sz, priority := prio, created_at := t0,
             accessed_at := t1, expires_at := expiresOf ttl t0,
             source := src, checksum := ck, metadata := md } := by
  by_cases hl : (evictLoop sz (c.entries.length + 1) c).2 = true
  · rw [put_true_shape c k sz src prio ttl ck md t0 hl]
    have hnd1 : ((evictLoop sz
        (c.entries.length + 1) c).1.entries.map (fun e => e.key)).Nodup :=
      hnd.sublist (((evictLoop_pres sz (c.entries.length + 1) c).2.1).map _)
    have hnone := removeEntry_find?_none k
      (evictLoop sz (c.entries.length + 1) c).1 hnd1
    have hfind : ((removeEntry k
        (evictLoop sz (c.entries.length + 1) c).1).1.entries ++
        [({ key := k, size_bytes := sz, priority := prio, created_at := t0,
            accessed_at := t0, expires_at := expiresOf ttl t0,
            source := src, checksum := ck, metadata := md } : CacheEntry)]).find?
        (fun e : CacheEntry => e.key == k) =
        some ({ key := k, size_bytes := sz, priority := prio, created_at := t0,
                accessed_at := t0, expires_at := expiresOf ttl t0,
                source := src, checksum := ck,
                metadata := md } : CacheEntry) := by
      rw [List.find?_append, hnone]
      simp
    have hexp2 : expiredB
        { key := k, size_bytes := sz, priority := prio, created_at := t0,
          accessed_at := t0, expires_at := expiresOf ttl t0,
          source := src, checksum := ck, metadata := md } t1 = false := by
      cases hE : expiresOf ttl t0 with
      | none => simp [expiredB, hE]
      | some exp =>
        simp only [expiredB, hE, decide_eq_false_iff_not, gt_iff_lt, not_lt]
        exact hexp exp hE
    simp only [CacheManager.get, hfind, hexp2, Bool.false_eq_true, if_false]
  · rw [put_false_shape c k sz src prio ttl ck md t0
      (Bool.eq_false_iff.mpr hl)] at hok
    exact absurd hok (by simp)

/-- Witness for C9: a concrete round trip (fresh 1000-byte cache, put at
time 3 with TTL 5, get at time 7). -/
theorem put_get_roundtrip_witness :
    (((cacheInit 1000).put "k" 100 "s" CachePriority.normal (some 5) "ck"
        [("a", "b")] 3).1.get "k" 7).2 =
      some { key := "k", size_bytes := 100, priority := CachePriority.normal,
             created_at := 3, accessed_at := 7,
             expires_at := expiresOf (some 5) 3,
             source := "s", checksum := "ck", metadata := [("a", "b")] } :=
  put_get_roundtrip (cacheInit 1000) "k" 100 "s" CachePriority.normal (some 5)
    "ck" [("a", "b")] 3 7 (by decide) (by decide)
    (by intro exp h; simp [expiresOf] at h; omega)

/-- Claim C10: with an empty handover history the success rate is 100.0
(not an error and not 0), and `get_statistics` returns the all-zero
snapshot with `meets_target=True`. -/
theorem empty_history_statistics :
    getHandoverSuccessRate handoverInit = 100 ∧
    getStatistics handoverInit =
      { total_handovers := 0, successful := 0, failed := 0,
        average_duration_ms := 0, min_duration_ms := 0, max_duration_ms := 0,
        total_packets_lost := 0, meets_target := true } := by
  constructor <;> rfl

/-! ## Controller lemmas: path updates, selection, handover check -/

theorem updatePaths_modes (probe : NetworkMode → Except String ProbeReading)
    (now : ℕ) : ∀ l : List NetworkPath,
    (updatePathsE probe now l).1.map (fun p => p.mode) =
      l.map (fun p => p.mode) := by
  intro l
  induction l with
  | nil => rfl
  | cons p rest ih =>
    rw [updatePathsE]
    by_cases hp : p.enabled = true
    · rw [if_pos hp]
      cases hpr : probe p.mode with
      | error e => rfl
      | ok r => simp only [List.map_cons, ih]; rfl
    · rw [if_neg hp]
      simp only [List.map_cons, ih]

theorem updatePaths_no_error (pr : NetworkMode → ProbeReading) (now : ℕ) :
    ∀ l : List NetworkPath,
    (updatePathsE (fun m => Except.ok (pr m)) now l).2 = false := by
  intro l
  induction l with
  | nil => rfl
  | cons p rest ih =>
    rw [updatePathsE]
    by_cases hp : p.enabled = true
    · rw [if_pos hp]
      exact ih
    · rw [if_neg hp]
      exact ih

theorem updatePaths_enabled_mem (probe : NetworkMode → Except String ProbeReading)
    (now : ℕ) (m : NetworkMode) : ∀ l : List NetworkPath,
    (∃ p ∈ l, p.mode = m ∧ p.enabled = true) →
    ∃ q ∈ (updatePathsE probe now l).1, q.mode = m ∧ q.enabled = true := by
  intro l
  induction l with
  | nil => rintro ⟨p, hp, _⟩; cases hp
  | cons p rest ih =>
    rintro ⟨q, hq, hqm, hqe⟩
    rw [updatePathsE]
    by_cases hp : p.enabled = true
    · rw [if_pos hp]
      cases hpr : probe p.mode with
      | error e => exact ⟨q, hq, hqm, hqe⟩
      | ok r =>
        rcases List.mem_cons.mp hq with rfl | hq2
        · exact ⟨applyReading r now q, List.mem_cons_self _ _, hqm, hqe⟩
        · obtain ⟨q2, hq2m, hq2p⟩ := ih ⟨q, hq2, hqm, hqe⟩
          exact ⟨q2, List.mem_cons_of_mem _ hq2m, hq2p⟩
    · rw [if_neg hp]
      rcases List.mem_cons.mp hq with rfl | hq2
      · exact ⟨q, List.mem_cons_self _ _, hqm, hqe⟩
      · obtain ⟨q2, hq2m, hq2p⟩ := ih ⟨q, hq2, hqm, hqe⟩
        exact ⟨q2, List.mem_cons_of_mem _ hq2m, hq2p⟩

theorem applyReading_eligible (r : ProbeReading) (now : ℕ) (p : NetworkPath)
    (hp : p.enabled = true) : eligibleB (applyReading r now p) = true := by
  show (p.enabled &&
    ((if r.signal_strength_dbm > -95 then ConnectionState.connected
      else ConnectionState.degraded) == ConnectionState.connected
     || (if r.signal_strength_dbm > -95 then ConnectionState.connected
      else ConnectionState.degraded) == ConnectionState.degraded)) = true
  rw [hp]
  by_cases hsig : r.signal_strength_dbm > -95
  · rw [if_pos hsig]
    rfl
  · rw [if_neg hsig]
    rfl

theorem updatePaths_ok_eligible (pr : NetworkMode → ProbeReading) (now : ℕ) :
    ∀ l : List NetworkPath,
    ∀ q ∈ (updatePathsE (fun m => Except.ok (pr m)) now l).1,
    q.enabled = true → eligibleB q = true := by
  intro l
  induction l with
  | nil => intro q hq; cases hq
  | cons p rest ih =>
    intro q hq hqe
    rw [updatePathsE] at hq
    by_cases hp : p.enabled = true
    · rw [if_pos hp] at hq
      rcases List.mem_cons.mp hq with rfl | hq2
      · exact applyReading_eligible (pr p.mode) now p hp
      · exact ih q hq2 hqe
    · rw [if_neg hp] at hq
      rcases List.mem_cons.mp hq with rfl | hq2
      · exact absurd hqe hp
      · exact ih q hq2 hqe

theorem availablePaths_filter (s : DDILController) :
    availablePaths s = s.paths.filter eligibleB := rfl

theorem selectBest_paths (s : DDILController) :
    (selectBestPath s).1.paths = s.paths := by
  cases h : firstMinBy ltSelKey (availablePaths s) with
  | none =>
    by_cases hoff : (s.active_mode == some NetworkMode.offline) = true
    · simp [selectBestPath, h, hoff]
    · simp [selectBestPath, h, hoff, enterDdilMode]
  | some best =>
    by_cases heq : (s.active_mode == some best.mode) = true
    · simp [selectBestPath, h, heq]
    · simp [selectBestPath, h, heq, performHandover]

theorem selectBest_activeOk (s : DDILController) :
    activeOk (selectBestPath s).1 := by
  intro m hm
  rw [selectBest_paths s]
  cases h : firstMinBy ltSelKey (availablePaths s) with
  | none =>
    by_cases hoff : (s.active_mode == some NetworkMode.offline) = true
    · left
      simp only [selectBestPath, h] at hm
      rw [if_pos hoff] at hm
      have hsm : s.active_mode = some NetworkMode.offline := by
        simpa using hoff
      rw [hsm] at hm
      exact (Option.some.inj hm).symm
    · left
      simp only [selectBestPath, h] at hm
      rw [if_neg hoff] at hm
      have hmm : some NetworkMode.offline = some m := hm
      exact (Option.some.inj hmm).symm
  | some best =>
    have hbest : best ∈ availablePaths s :=
      (firstMinBy_mem_min ltSelKey ltSelKey_trans ltSelKey_irrefl _ _ h).1
    rw [availablePaths_filter] at hbest
    have hbmem : best ∈ s.paths := (List.mem_filter.mp hbest).1
    have hbel : eligibleB best = true := (List.mem_filter.mp hbest).2
    have hben : best.enabled = true := by
      have hb2 := hbel
      simp only [eligibleB, Bool.and_eq_true] at hb2
      exact hb2.1
    by_cases heq : (s.active_mode == some best.mode) = true
    · simp only [selectBestPath, h] at hm
      rw [if_pos heq] at hm
      have hsm : s.active_mode = some best.mode := by simpa using heq
      rw [hsm] at hm
      right
      exact ⟨best, hbmem, Option.some.inj hm, hben⟩
    · simp only [selectBestPath, h] at hm
      rw [if_neg heq] at hm
      have hmm : some best.mode = some m := hm
      right
      exact ⟨best, hbmem, Option.some.inj hmm, hben⟩

theorem check_paths (s : DDILController) :
    (checkHandoverNeeded s).1.paths = s.paths := by
  cases ha : s.active_mode with
  | none => simp [checkHandoverNeeded, ha, selectBest_paths]
  | some m =>
    cases hf : findPath s m with
    | none => simp [checkHandoverNeeded, ha, hf, selectBest_paths]
    | some p =>
      by_cases hst : (p.state == ConnectionState.disconnected
          || p.state == ConnectionState.failing) = true
      · simp [checkHandoverNeeded, ha, hf, hst, selectBest_paths]
      · simp [checkHandoverNeeded, ha, hf, hst]

theorem check_activeOk (s : DDILController) (h : activeOk s) :
    activeOk (checkHandoverNeeded s).1 := by
  cases ha : s.active_mode with
  | none =>
    have he : checkHandoverNeeded s = selectBestPath s := by
      simp [checkHandoverNeeded, ha]
    rw [he]
    exact selectBest_activeOk s
  | some m =>
    cases hf : findPath s m with
    | none =>
      have he : checkHandoverNeeded s = selectBestPath s := by
        simp [checkHandoverNeeded, ha, hf]
      rw [he]
      exact selectBest_activeOk s
    | some p =>
      by_cases hst : (p.state == ConnectionState.disconnected
          || p.state == ConnectionState.failing) = true
      · have he : checkHandoverNeeded s = selectBestPath s := by
          simp [checkHandoverNeeded, ha, hf, hst]
        rw [he]
        exact selectBest_activeOk s
      · have he : checkHandoverNeeded s = (s, []) := by
          simp [checkHandoverNeeded, ha, hf, hst]
        rw [he]
        exact h

/-! ## Preservation of the controller invariant -/

theorem monitorCycle_inv (probe : NetworkMode → Except String ProbeReading)
    (now : ℕ) (s : DDILController) (h : ddilInv s) :
    ddilInv (monitorCycleE probe now s).1 := by
  obtain ⟨hmodes, hact⟩ := h
  have hmodes1 : ({ s with paths := (updatePathsE probe now s.paths).1 }
      : DDILController).paths.map (fun p => p.mode) = pathModes := by
    show (updatePathsE probe now s.paths).1.map (fun p => p.mode) = pathModes
    rw [updatePaths_modes]
    exact hmodes
  have hact1 : activeOk { s with paths := (updatePathsE probe now s.paths).1 } := by
    intro m hm
    have hm' : s.active_mode = some m := hm
    rcases hact m hm' with h1 | ⟨p, hpmem, hpm, hpe⟩
    · exact Or.inl h1
    · right
      exact updatePaths_enabled_mem probe now m s.paths ⟨p, hpmem, hpm, hpe⟩
  show ddilInv (if (updatePathsE probe now s.paths).2 then
    ({ s with paths := (updatePathsE probe now s.paths).1 }, ([] : List DDILEvent))
    else checkHandoverNeeded
      { s with paths := (updatePathsE probe now s.paths).1 }).1
  by_cases herr : (updatePathsE probe now s.paths).2 = true
  · rw [if_pos herr]
    exact ⟨hmodes1, hact1⟩
  · rw [if_neg herr]
    constructor
    · rw [check_paths]
      exact hmodes1
    · exact check_activeOk _ hact1

theorem force_inv (m : NetworkMode) (s : DDILController) (h : ddilInv s) :
    ddilInv (forceHandover m s).1.1 := by
  obtain ⟨hmodes, hact⟩ := h
  cases hf : findPath s m with
  | none =>
    simp only [forceHandover, hf]
    exact ⟨hmodes, hact⟩
  | some p =>
    by_cases hen : p.enabled = true
    · simp only [forceHandover, hf]
      rw [if_pos hen]
      refine ⟨hmodes, ?_⟩
      intro m0 hm0
      have hmm : some m = some m0 := hm0
      right
      have hf2 : s.paths.find? (fun p => p.mode == m) = some p := hf
      have hpmem : p ∈ s.paths := List.mem_of_find?_eq_some hf2
      have hpm : (p.mode == m) = true :=
        @List.find?_some _ (fun p : NetworkPath => p.mode == m) p s.paths hf2
      refine ⟨p, hpmem, ?_, hen⟩
      have hpmeq : p.mode = m := by simpa using hpm
      rw [hpmeq]
      exact Option.some.inj hmm
    · simp only [forceHandover, hf]
      rw [if_neg hen]
      exact ⟨hmodes, hact⟩

theorem enable_inv (m : NetworkMode) (s : DDILController) (h : ddilInv s) :
    ddilInv (enablePath m s) := by
  obtain ⟨hmodes, hact⟩ := h
  constructor
  · show (s.paths.map (fun p =>
      if p.mode == m then { p with enabled := true } else p)).map
        (fun p => p.mode) = pathModes
    rw [List.map_map]
    have hcomp : ((fun p : NetworkPath => p.mode) ∘ fun p =>
        if p.mode == m then { p with enabled := true } else p) =
        fun p : NetworkPath => p.mode := by
      funext p
      by_cases hp : (p.mode == m) = true
      · simp [Function.comp, hp]
      · simp [Function.comp, hp]
    rw [hcomp]
    exact hmodes
  · intro m0 hm0
    have hm0' : s.active_mode = some m0 := hm0
    rcases hact m0 hm0' with h1 | ⟨p, hpmem, hpm, hpe⟩
    · exact Or.inl h1
    · right
      refine ⟨if p.mode == m then { p with enabled := true } else p,
        List.mem_map_of_mem _ hpmem, ?_, ?_⟩
      · by_cases hp : (p.mode == m) = true
        · rw [if_pos hp]; exact hpm
        · rw [if_neg hp]; exact hpm
      · by_cases hp : (p.mode == m) = true
        · rw [if_pos hp]
        · rw [if_neg hp]; exact hpe

theorem toggle_off_modes (m : NetworkMode) (s : DDILController) :
    (disableFlag m s).paths.map (fun p => p.mode) =
      s.paths.map (fun p => p.mode) := by
  show (s.paths.map (fun p =>
    if p.mode == m then { p with enabled := false } else p)).map
      (fun p => p.mode) = s.paths.map (fun p => p.mode)
  rw [List.map_map]
  have hcomp : ((fun p : NetworkPath => p.mode) ∘ fun p =>
      if p.mode == m then { p with enabled := false } else p) =
      fun p : NetworkPath => p.mode := by
    funext p
    by_cases hp : (p.mode == m) = true
    · simp [Function.comp, hp]
    · simp [Function.comp, hp]
  rw [hcomp]

theorem disable_inv (m : NetworkMode) (s : DDILController) (h : ddilInv s) :
    ddilInv (disablePath m s).1 := by
  obtain ⟨hmodes, hact⟩ := h
  by_cases hany : (s.paths.any (fun p => p.mode == m)) = true
  · have hmodes1 : (disableFlag m s).paths.map (fun p => p.mode) = pathModes := by
      rw [toggle_off_modes]
      exact hmodes
    by_cases hac : (s.active_mode == some m) = true
    · have hd : disablePath m s = selectBestPath (disableFlag m s) := by
        unfold disablePath
        rw [if_pos hany, if_pos hac]
      rw [hd]
      constructor
      · rw [selectBest_paths]
        exact hmodes1
      · exact selectBest_activeOk _
    · have hd : disablePath m s = (disableFlag m s, []) := by
        unfold disablePath
        rw [if_pos hany, if_neg hac]
      rw [hd]
      refine ⟨hmodes1, ?_⟩
      intro m0 hm0
      have hm0' : s.active_mode = some m0 := hm0
      rcases hact m0 hm0' with h1 | ⟨p, hpmem, hpm, hpe⟩
      · exact Or.inl h1
      · right
        have hne : m0 ≠ m := by
          intro hEq
          apply hac
          rw [hm0', hEq]
          simp
        have hpne : ¬ ((p.mode == m) = true) := by
          simp only [beq_iff_eq]
          rw [hpm]
          exact hne
        have hfp : (fun p : NetworkPath =>
            if p.mode == m then { p with enabled := false } else p) p = p := by
          show (if p.mode == m then { p with enabled := false } else p) = p
          rw [if_neg hpne]
        have hmem2 : (fun p : NetworkPath =>
            if p.mode == m then { p with enabled := false } else p) p ∈
            s.paths.map (fun p =>
              if p.mode == m then { p with enabled := false } else p) :=
          List.mem_map_of_mem _ hpmem
        rw [hfp] at hmem2
        exact ⟨p, hmem2, hpm, hpe⟩
  · have hd : disablePath m s = (s, []) := by
      unfold disablePath
      rw [if_neg hany]
    rw [hd]
    exact ⟨hmodes, hact⟩

theorem applyDDILOp_inv (s : DDILController) (op : DDILOp) (h : ddilInv s) :
    ddilInv (applyDDILOp s op) := by
  cases op with
  | poll probe now => exact monitorCycle_inv probe now s h
  | force m => exact force_inv m s h
  | enable m => exact enable_inv m s h
  | disable m => exact disable_inv m s h

theorem reachable_inv (s : DDILController) (h : DDILReachable s) : ddilInv s := by
  induction h with
  | init =>
    refine ⟨rfl, ?_⟩
    intro m hm
    cases hm
  | step op hs ih => exact applyDDILOp_inv _ op ih

/-! ## At most one active path; the Offline equivalence after a poll -/

theorem filter_opt_mode_length (o : Option NetworkMode) :
    ∀ l : List NetworkPath, (l.map (fun p => p.mode)).Nodup →
    (l.filter (fun p => o == some p.mode)).length ≤ 1 := by
  intro l
  induction l with
  | nil => intro _; simp
  | cons x xs ih =>
    intro hnd
    simp only [List.map_cons, List.nodup_cons] at hnd
    obtain ⟨hx_notin, hnd2⟩ := hnd
    by_cases hx : (o == some x.mode) = true
    · have hcons : List.filter (fun p => o == some p.mode) (x :: xs) =
          x :: xs.filter (fun p => o == some p.mode) :=
        List.filter_cons_of_pos hx
      have hxs : xs.filter (fun p => o == some p.mode) = [] := by
        rw [List.filter_eq_nil_iff]
        intro p hp hcon
        have h1 : o = some x.mode := by simpa using hx
        have h2 : o = some p.mode := by simpa using hcon
        rw [h1] at h2
        apply hx_notin
        rw [Option.some.inj h2]
        exact List.mem_map.mpr ⟨p, hp, rfl⟩
      rw [hcons, hxs]
      simp
    · have hcons : List.filter (fun p => o == some p.mode) (x :: xs) =
          xs.filter (fun p => o == some p.mode) :=
        List.filter_cons_of_neg hx
      rw [hcons]
      exact ih hnd2

theorem activeCount_le_one (s : DDILController)
    (hmodes : s.paths.map (fun p => p.mode) = pathModes) : activeCount s ≤ 1 := by
  have hnd : (s.paths.map (fun p => p.mode)).Nodup := by
    rw [hmodes]
    decide
  exact filter_opt_mode_length s.active_mode s.paths hnd

theorem offline_not_mem_pathModes : NetworkMode.offline ∉ pathModes := by decide

theorem find?_mode_of_mem : ∀ (l : List NetworkPath),
    (l.map (fun p => p.mode)).Nodup →
    ∀ q ∈ l, l.find? (fun p => p.mode == q.mode) = some q := by
  intro l
  induction l with
  | nil => intro _ q hq; cases hq
  | cons x xs ih =>
    intro hnd q hq
    simp only [List.map_cons, List.nodup_cons] at hnd
    obtain ⟨hx_notin, hnd2⟩ := hnd
    rcases List.mem_cons.mp hq with rfl | hq2
    · exact List.find?_cons_of_pos _ (by simp)
    · have hx : ¬ ((x.mode == q.mode) = true) := by
        simp only [beq_iff_eq]
        intro hc
        apply hx_notin
        rw [hc]
        exact List.mem_map.mpr ⟨q, hq2, rfl⟩
      have hstep : List.find? (fun p => p.mode == q.mode) (x :: xs) =
          List.find? (fun p => p.mode == q.mode) xs :=
        List.find?_cons_of_neg _ hx
      rw [hstep]
      exact ih hnd2 q hq2

theorem selectBest_offlineIff (s1 : DDILController)
    (hmod : s1.paths.map (fun p => p.mode) = pathModes) :
    offlineIffNoEligible (selectBestPath s1).1 := by
  cases h : firstMinBy ltSelKey (availablePaths s1) with
  | none =>
    have hnil : availablePaths s1 = [] := firstMinBy_none _ _ h
    have hnone : ∀ p ∈ s1.paths, eligibleB p = false := by
      rw [availablePaths_filter] at hnil
      intro p hp
      exact Bool.eq_false_iff.mpr (List.filter_eq_nil_iff.mp hnil p hp)
    by_cases hoff : (s1.active_mode == some NetworkMode.offline) = true
    · have hsel : selectBestPath s1 = (s1, []) := by
        simp only [selectBestPath, h]
        rw [if_pos hoff]
      rw [hsel]
      unfold offlineIffNoEligible isOffline
      constructor
      · intro _
        exact hnone
      · intro _
        simpa using hoff
    · have hsel : selectBestPath s1 = enterDdilMode s1 := by
        simp only [selectBestPath, h]
        rw [if_neg hoff]
      rw [hsel]
      unfold offlineIffNoEligible isOffline
      constructor
      · intro _
        exact hnone
      · intro _
        rfl
  | some best =>
    have hbmem0 := (firstMinBy_mem_min ltSelKey ltSelKey_trans
      ltSelKey_irrefl _ _ h).1
    rw [availablePaths_filter] at hbmem0
    have hbmem : best ∈ s1.paths := (List.mem_filter.mp hbmem0).1
    have hbel : eligibleB best = true := (List.mem_filter.mp hbmem0).2
    have hbmode : best.mode ≠ NetworkMode.offline := by
      intro hc
      apply offline_not_mem_pathModes
      rw [← hmod, ← hc]
      exact List.mem_map.mpr ⟨best, hbmem, rfl⟩
    have hRHSfalse : ¬ (∀ p ∈ s1.paths, eligibleB p = false) := by
      intro hall
      have hcon := hall best hbmem
      rw [hbel] at hcon
      cases hcon
    by_cases heq : (s1.active_mode == some best.mode) = true
    · have hsel : selectBestPath s1 = (s1, []) := by
        simp only [selectBestPath, h]
        rw [if_pos heq]
      rw [hsel]
      unfold offlineIffNoEligible isOffline
      constructor
      · intro hLHS
        exfalso
        have hsm : s1.active_mode = some best.mode := by simpa using heq
        rw [hsm] at hLHS
        exact hbmode (Option.some.inj hLHS)
      · intro hRHS
        exact absurd hRHS hRHSfalse
    · have hsel : selectBestPath s1 = performHandover best.mode s1 := by
        simp only [selectBestPath, h]
        rw [if_neg heq]
      rw [hsel]
      unfold offlineIffNoEligible isOffline performHandover
      constructor
      · intro hLHS
        exfalso
        have hLHS2 : some best.mode = some NetworkMode.offline := hLHS
        exact hbmode (Option.some.inj hLHS2)
      · intro hRHS
        exact absurd hRHS hRHSfalse

theorem poll_offlineIff (s : DDILController) (hinv : ddilInv s)
    (pr : NetworkMode → ProbeReading) (now : ℕ) :
    offlineIffNoEligible (pollCycle pr now s).1 := by
  obtain ⟨hmodes, hact⟩ := hinv
  have herr := updatePaths_no_error pr now s.paths
  have hpoll : pollCycle pr now s = checkHandoverNeeded
      { s with paths :=
        (updatePathsE (fun m => Except.ok (pr m)) now s.paths).1 } := by
    show (if (updatePathsE (fun m => Except.ok (pr m)) now s.paths).2 then
      ({ s with paths :=
        (updatePathsE (fun m => Except.ok (pr m)) now s.paths).1 },
        ([] : List DDILEvent))
      else checkHandoverNeeded
        { s with paths :=
          (updatePathsE (fun m => Except.ok (pr m)) now s.paths).1 }) = _
    rw [herr]
    simp
  have hmodesU : (updatePathsE (fun m => Except.ok (pr m)) now s.paths).1.map
      (fun p => p.mode) = pathModes := by
    rw [updatePaths_modes]
    exact hmodes
  have hel : ∀ q ∈ (updatePathsE (fun m => Except.ok (pr m)) now s.paths).1,
      q.enabled = true → eligibleB q = true :=
    updatePaths_ok_eligible pr now s.paths
  cases ham : s.active_mode with
  | none =>
    rw [hpoll]
    have hch : checkHandoverNeeded { s with paths :=
        (updatePathsE (fun m => Except.ok (pr m)) now s.paths).1 } =
        selectBestPath { s with paths :=
          (updatePathsE (fun m => Except.ok (pr m)) now s.paths).1 } := by
      simp only [checkHandoverNeeded, ham]
    rw [hch]
    exact selectBest_offlineIff _ hmodesU
  | some m =>
    rw [hpoll]
    by_cases hmo : m = NetworkMode.offline
    · subst hmo
      have hfind : (updatePathsE (fun m => Except.ok (pr m))
          now s.paths).1.find?
          (fun p => p.mode == NetworkMode.offline) = none := by
        apply List.find?_eq_none.mpr
        intro p hp
        simp only [beq_iff_eq]
        intro hc
        apply offline_not_mem_pathModes
        rw [← hmodesU, ← hc]
        exact List.mem_map.mpr ⟨p, hp, rfl⟩
      have hch : checkHandoverNeeded { s with paths :=
          (updatePathsE (fun m => Except.ok (pr m)) now s.paths).1 } =
          selectBestPath { s with paths :=
            (updatePathsE (fun m => Except.ok (pr m)) now s.paths).1 } := by
        simp only [checkHandoverNeeded, ham, findPath, hfind]
      rw [hch]
      exact selectBest_offlineIff _ hmodesU
    · rcases hact m ham with h1 | ⟨p, hpmem, hpm, hpe⟩
      · exact absurd h1 hmo
      · obtain ⟨q, hqmem, hqm, hqe⟩ := updatePaths_enabled_mem
          (fun m => Except.ok (pr m)) now m s.paths ⟨p, hpmem, hpm, hpe⟩
        have hqel : eligibleB q = true := hel q hqmem hqe
        have hndm : ((updatePathsE (fun m => Except.ok (pr m))
            now s.paths).1.map (fun p => p.mode)).Nodup := by
          rw [hmodesU]
          decide
        have hfind : (updatePathsE (fun m => Except.ok (pr m))
            now s.paths).1.find? (fun p => p.mode == m) = some q := by
          have hq := find?_mode_of_mem _ hndm q hqmem
          rw [hqm] at hq
          exact hq
        have hstate : (q.state == ConnectionState.disconnected
            || q.state == ConnectionState.failing) = false := by
          have hq2 := hqel
          simp only [eligibleB, Bool.and_eq_true, Bool.or_eq_true,
            beq_iff_eq] at hq2
          rcases hq2.2 with h2 | h2 <;> rw [h2] <;> rfl
        have hch : checkHandoverNeeded { s with paths :=
            (updatePathsE (fun m => Except.ok (pr m)) now s.paths).1 } =
            ({ s with paths :=
              (updatePathsE (fun m => Except.ok (pr m)) now s.paths).1 },
              []) := by
          simp only [checkHandoverNeeded, ham, findPath, hfind, hstate]
          simp
        rw [hch]
        unfold offlineIffNoEligible isOffline
        constructor
        · intro hLHS
          exfalso
          have hLHS2 : s.active_mode = some NetworkMode.offline := hLHS
          rw [ham] at hLHS2
          exact hmo (Option.some.inj hLHS2)
        · intro hRHS
          exfalso
          have hcon := hRHS q hqmem
          rw [hqel] at hcon
          cases hcon

/-- Claim C1 counterexample: the claim as stated is false — the freshly
initialised controller is reachable (empty call sequence), no path is
CONNECTED or DEGRADED there, yet the system is not in Offline mode
(`active_mode` is `None`), so the equivalence fails. -/
theorem offline_iff_fails_at_init :
    DDILReachable ddilInit ∧ ¬ offlineIffNoEligible ddilInit := by
  refine ⟨DDILReachable.init, ?_⟩
  unfold offlineIffNoEligible isOffline
  intro hiff
  have h := hiff.mpr (by decide)
  exact absurd h (by decide)

/-- Claim C1 (amended): in every reachable controller state at most one
path is named by `active_mode`; and the equivalence "Offline iff no
enabled path is CONNECTED or DEGRADED" holds in every state produced by an
exception-free poll cycle from a reachable state.  (As stated, the
equivalence is not an invariant of all reachable states: it fails in the
initial state and after `force_handover`/`enable_path`, see the
counterexample.) -/
theorem reachable_at_most_one_active_poll_offline_iff (s : DDILController)
    (h : DDILReachable s) :
    activeCount s ≤ 1 ∧
    ∀ (pr : NetworkMode → ProbeReading) (now : ℕ),
      offlineIffNoEligible (pollCycle pr now s).1 := by
  have hinv : ddilInv s := reachable_inv s h
  exact ⟨activeCount_le_one s hinv.1,
    fun pr now => poll_offlineIff s hinv pr now⟩

/-! ## DDIL entry/exit events and the status string -/

theorem updatePaths_all_disabled (probe : NetworkMode → Except String ProbeReading)
    (now : ℕ) : ∀ l : List NetworkPath, (∀ p ∈ l, p.enabled = false) →
    updatePathsE probe now l = (l, false) := by
  intro l
  induction l with
  | nil => intro _; rfl
  | cons x xs ih =>
    intro hdis
    have hx : ¬ (x.enabled = true) := by
      rw [hdis x (List.mem_cons_self x xs)]
      simp
    rw [updatePathsE, if_neg hx, ih (fun p hp => hdis p (List.mem_cons_of_mem x hp))]

/-- Claim C6 (amended): when no path is enabled and nothing was ever
selected, the first poll cycle enters DDIL mode firing `ddil_enter`
exactly once; on subsequent cycles while Offline no further `ddil_enter`
fires, and no `ddil_exit` ever fires — not even when a path re-qualifies
(the controller then just hands over); and `get_status` reports the mode
string "ddil" (not "offline") while Offline. -/
theorem ddil_enter_once_no_exit (s : DDILController)
    (hm : ∀ p ∈ s.paths, p.mode ≠ NetworkMode.offline) :
    ((∀ p ∈ s.paths, p.enabled = false) → s.active_mode = none →
      ∀ (probe : NetworkMode → Except String ProbeReading) (now : ℕ),
        (monitorCycleE probe now s).2 = [DDILEvent.ddil_enter]) ∧
    (s.active_mode = some NetworkMode.offline →
      ∀ (probe : NetworkMode → Except String ProbeReading) (now : ℕ),
        DDILEvent.ddil_enter ∉ (monitorCycleE probe now s).2 ∧
        DDILEvent.ddil_exit ∉ (monitorCycleE probe now s).2) ∧
    (s.active_mode = some NetworkMode.offline → (getStatus s).mode = "ddil") := by
  refine ⟨?_, ?_, ?_⟩
  · intro hdis hnone probe now
    have hupd := updatePaths_all_disabled probe now s.paths hdis
    have hmon : monitorCycleE probe now s =
        checkHandoverNeeded { s with paths := s.paths } := by
      show (if (updatePathsE probe now s.paths).2 then
        ({ s with paths := (updatePathsE probe now s.paths).1 },
          ([] : List DDILEvent))
        else checkHandoverNeeded
          { s with paths := (updatePathsE probe now s.paths).1 }) = _
      rw [hupd]
      simp
    rw [hmon]
    have hch : checkHandoverNeeded { s with paths := s.paths } =
        selectBestPath { s with paths := s.paths } := by
      simp only [checkHandoverNeeded, hnone]
    rw [hch]
    have havail : availablePaths { s with paths := s.paths } = [] := by
      rw [availablePaths_filter]
      show s.paths.filter eligibleB = []
      rw [List.filter_eq_nil_iff]
      intro p hp
      have hpd := hdis p hp
      simp [eligibleB, hpd]
    have hfm : firstMinBy ltSelKey (availablePaths { s with paths := s.paths }) =
        none := by
      rw [havail]
      rfl
    simp only [selectBestPath, hfm]
    have hcond : ¬ ((({ s with paths := s.paths }
        : DDILController).active_mode == some NetworkMode.offline) = true) := by
      show ¬ ((s.active_mode == some NetworkMode.offline) = true)
      rw [hnone]
      simp
    rw [if_neg hcond]
    rfl
  · intro hoff probe now
    by_cases herr : (updatePathsE probe now s.paths).2 = true
    · have hmon : (monitorCycleE probe now s).2 = [] := by
        show (if (updatePathsE probe now s.paths).2 then
          ({ s with paths := (updatePathsE probe now s.paths).1 },
            ([] : List DDILEvent))
          else checkHandoverNeeded
            { s with paths := (updatePathsE probe now s.paths).1 }).2 = []
        rw [if_pos herr]
      rw [hmon]
      exact ⟨List.not_mem_nil _, List.not_mem_nil _⟩
    · have hmon : monitorCycleE probe now s = checkHandoverNeeded
          { s with paths := (updatePathsE probe now s.paths).1 } := by
        show (if (updatePathsE probe now s.paths).2 then
          ({ s with paths := (updatePathsE probe now s.paths).1 },
            ([] : List DDILEvent))
          else checkHandoverNeeded
            { s with paths := (updatePathsE probe now s.paths).1 }) = _
        rw [if_neg herr]
      rw [hmon]
      have hnooff : ∀ q ∈ (updatePathsE probe now s.paths).1,
          q.mode ≠ NetworkMode.offline := by
        intro q hq
        have hqm : q.mode ∈ (updatePathsE probe now s.paths).1.map
            (fun p => p.mode) := List.mem_map.mpr ⟨q, hq, rfl⟩
        rw [updatePaths_modes] at hqm
        obtain ⟨p, hp, hpq⟩ := List.mem_map.mp hqm
        rw [← hpq]
        exact hm p hp
      have hfind : (updatePathsE probe now s.paths).1.find?
          (fun p => p.mode == NetworkMode.offline) = none := by
        apply List.find?_eq_none.mpr
        intro p hp
        simp only [beq_iff_eq]
        exact hnooff p hp
      have hch : checkHandoverNeeded
          { s with paths := (updatePathsE probe now s.paths).1 } =
          selectBestPath
            { s with paths := (updatePathsE probe now s.paths).1 } := by
        simp only [checkHandoverNeeded, hoff, findPath, hfind]
      rw [hch]
      cases hfm : firstMinBy ltSelKey (availablePaths
          { s with paths := (updatePathsE probe now s.paths).1 }) with
      | none =>
        have hcond : ((({ s with paths := (updatePathsE probe now s.paths).1 }
            : DDILController).active_mode == some NetworkMode.offline) = true) := by
          show ((s.active_mode == some NetworkMode.offline) = true)
          rw [hoff]
          simp
        simp only [selectBestPath, hfm]
        rw [if_pos hcond]
        exact ⟨List.not_mem_nil _, List.not_mem_nil _⟩
      | some best =>
        have hbmem0 := (firstMinBy_mem_min ltSelKey ltSelKey_trans
          ltSelKey_irrefl _ _ hfm).1
        rw [availablePaths_filter] at hbmem0
        have hbmem : best ∈ (updatePathsE probe now s.paths).1 :=
          (List.mem_filter.mp hbmem0).1
        have hbmode : best.mode ≠ NetworkMode.offline := hnooff best hbmem
        have hcond : ¬ ((({ s with paths :=
            (updatePathsE probe now s.paths).1 }
            : DDILController).active_mode == some best.mode) = true) := by
          show ¬ ((s.active_mode == some best.mode) = true)
          rw [hoff]
          simp only [beq_iff_eq, Option.some.injEq]
          intro hc
          exact hbmode hc.symm
        simp only [selectBestPath, hfm]
        rw [if_neg hcond]
        constructor
        · intro hmem
          rcases List.mem_singleton.mp hmem with h
          cases h
        · intro hmem
          rcases List.mem_singleton.mp hmem with h
          cases h
  · intro hoff
    show (if s.active_mode == some NetworkMode.offline then "ddil"
      else "connected") = "ddil"
    rw [hoff]
    simp

/-- Witness for C6: from the all-disabled fresh controller one poll fires
`ddil_enter` exactly once; afterwards, while Offline, a poll fires neither
`ddil_enter` nor `ddil_exit`, and the status string is "ddil". -/
theorem ddil_enter_once_no_exit_witness :
    (monitorCycleE probeOk 0 sAllDisabled).2 = [DDILEvent.ddil_enter] ∧
    (DDILEvent.ddil_enter ∉ (monitorCycleE probeOk 1 sOffline).2 ∧
      DDILEvent.ddil_exit ∉ (monitorCycleE probeOk 1 sOffline).2) ∧
    (getStatus sOffline).mode = "ddil" :=
  ⟨(ddil_enter_once_no_exit sAllDisabled (by decide)).1 (by decide) (by decide)
      probeOk 0,
   (ddil_enter_once_no_exit sOffline (by decide)).2.1 (by decide) probeOk 1,
   (ddil_enter_once_no_exit sOffline (by decide)).2.2 (by decide)⟩

/-- Claim C6 counterexample: with every path disabled the controller is in
DDIL mode but `get_status().mode` is "ddil", not "offline"; and when the
wired path is re-enabled and re-qualifies on the next poll, the controller
selects it (handover) without ever firing a `ddil_exit` event. -/
theorem ddil_exit_status_counterexample :
    isOffline sOffline ∧
    (getStatus sOffline).mode = "ddil" ∧
    (getStatus sOffline).mode ≠ "offline" ∧
    (monitorCycleE probeOk 1
      (enablePath NetworkMode.wired sOffline)).1.active_mode =
      some NetworkMode.wired ∧
    DDILEvent.ddil_exit ∉
      (monitorCycleE probeOk 1 (enablePath NetworkMode.wired sOffline)).2 := by
  refine ⟨?_, by decide, by decide, by decide, by decide⟩
  unfold isOffline
  decide

/-! ## Exception containment in the monitoring cycle -/

theorem updatePathsE_error_split (probe : NetworkMode → Except String ProbeReading)
    (now : ℕ) : ∀ l : List NetworkPath,
    (updatePathsE probe now l).2 = true →
    ∃ pre p post, l = pre ++ p :: post ∧ p.enabled = true ∧
      (∃ e, probe p.mode = Except.error e) ∧
      (updatePathsE probe now pre).2 = false ∧
      (updatePathsE probe now l).1 = (updatePathsE probe now pre).1 ++ p :: post := by
  intro l
  induction l with
  | nil => intro h; cases h
  | cons x xs ih =>
    intro h
    by_cases hx : x.enabled = true
    · cases hpr : probe x.mode with
      | error e =>
        refine ⟨[], x, xs, rfl, hx, ⟨e, hpr⟩, rfl, ?_⟩
        show (updatePathsE probe now (x :: xs)).1 = [] ++ x :: xs
        rw [updatePathsE, if_pos hx, hpr]
        rfl
      | ok r =>
        have hred1 : (updatePathsE probe now (x :: xs)).2 =
            (updatePathsE probe now xs).2 := by
          rw [updatePathsE, if_pos hx, hpr]
        rw [hred1] at h
        obtain ⟨pre, p, post, hsplit, hpe, herr2, hpre, hres⟩ := ih h
        refine ⟨x :: pre, p, post, by rw [List.cons_append, ← hsplit], hpe,
          herr2, ?_, ?_⟩
        · have hred2 : (updatePathsE probe now (x :: pre)).2 =
              (updatePathsE probe now pre).2 := by
            rw [updatePathsE, if_pos hx, hpr]
          rw [hred2]
          exact hpre
        · have hred3 : (updatePathsE probe now (x :: xs)).1 =
              applyReading r now x :: (updatePathsE probe now xs).1 := by
            rw [updatePathsE, if_pos hx, hpr]
          have hred4 : (updatePathsE probe now (x :: pre)).1 =
              applyReading r now x :: (updatePathsE probe now pre).1 := by
            rw [updatePathsE, if_pos hx, hpr]
          rw [hred3, hred4, hres]
          rfl
    · have hred1 : (updatePathsE probe now (x :: xs)).2 =
          (updatePathsE probe now xs).2 := by
        rw [updatePathsE, if_neg hx]
      rw [hred1] at h
      obtain ⟨pre, p, post, hsplit, hpe, herr2, hpre, hres⟩ := ih h
      refine ⟨x :: pre, p, post, by rw [List.cons_append, ← hsplit], hpe,
        herr2, ?_, ?_⟩
      · have hred2 : (updatePathsE probe now (x :: pre)).2 =
            (updatePathsE probe now pre).2 := by
          rw [updatePathsE, if_neg hx]
        rw [hred2]
        exact hpre
      · have hred3 : (updatePathsE probe now (x :: xs)).1 =
            x :: (updatePathsE probe now xs).1 := by
          rw [updatePathsE, if_neg hx]
        have hred4 : (updatePathsE probe now (x :: pre)).1 =
            x :: (updatePathsE probe now pre).1 := by
          rw [updatePathsE, if_neg hx]
        rw [hred3, hred4, hres]
        rfl

/-- Claim C7 (amended): an exception raised while polling one path is
caught around the whole cycle, not per path: the monitoring loop survives
(no event fires and `active_mode` is unchanged), but the raising path is
left in its previous state — it is not transitioned to FAILING — and
every path after it in table order is not polled at all that cycle, so
only the paths before it keep refreshed metrics; the handover check is
skipped for the cycle. -/
theorem poll_exception_containment (s : DDILController)
    (probe : NetworkMode → Except String ProbeReading) (now : ℕ)
    (herr : (updatePathsE probe now s.paths).2 = true) :
    (monitorCycleE probe now s).2 = [] ∧
    (monitorCycleE probe now s).1.active_mode = s.active_mode ∧
    ∃ pre p post, s.paths = pre ++ p :: post ∧ p.enabled = true ∧
      (∃ e, probe p.mode = Except.error e) ∧
      (monitorCycleE probe now s).1.paths =
        (updatePathsE probe now pre).1 ++ p :: post := by
  have hmon : monitorCycleE probe now s =
      ({ s with paths := (updatePathsE probe now s.paths).1 }, []) := by
    show (if (updatePathsE probe now s.paths).2 then
      ({ s with paths := (updatePathsE probe now s.paths).1 },
        ([] : List DDILEvent))
      else checkHandoverNeeded
        { s with paths := (updatePathsE probe now s.paths).1 }) = _
    rw [if_pos herr]
  obtain ⟨pre, p, post, hsplit, hpe, he, _, hres⟩ :=
    updatePathsE_error_split probe now s.paths herr
  rw [hmon]
  exact ⟨rfl, rfl, pre, p, post, hsplit, hpe, he, hres⟩

/-- Witness for C7 at the fresh controller under a probe that raises on
the satellite path. -/
theorem poll_exception_containment_witness :
    (monitorCycleE probeFailSat 0 ddilInit).2 = [] ∧
    (monitorCycleE probeFailSat 0 ddilInit).1.active_mode =
      ddilInit.active_mode ∧
    ∃ pre p post, ddilInit.paths = pre ++ p :: post ∧ p.enabled = true ∧
      (∃ e, probeFailSat p.mode = Except.error e) ∧
      (monitorCycleE probeFailSat 0 ddilInit).1.paths =
        (updatePathsE probeFailSat 0 pre).1 ++ p :: post :=
  poll_exception_containment ddilInit probeFailSat 0 (by decide)

/-- Claim C7 counterexample: with a probe raising on the satellite path
(the first one polled), the cycle leaves the controller fully unchanged:
satellite stays DISCONNECTED (it does not become FAILING) and the later
cellular path is not polled, although the same healthy reading would have
made it CONNECTED. -/
theorem poll_exception_not_failing_counterexample :
    monitorCycleE probeFailSat 0 ddilInit = (ddilInit, []) ∧
    probeFailSat NetworkMode.satellite = Except.error "probe timeout" ∧
    (findPath ddilInit NetworkMode.satellite).map (fun p => p.state) =
      some ConnectionState.disconnected ∧
    (findPath ddilInit NetworkMode.cellular5g).map (fun p => p.state) =
      some ConnectionState.disconnected ∧
    (findPath (pollCycle probeTotal 0 ddilInit).1 NetworkMode.cellular5g).map
      (fun p => p.state) = some ConnectionState.connected := by
  refine ⟨by decide, rfl, by decide, by decide, by decide⟩

/-- Witness for C1 at the initial state with a healthy probe. -/
theorem reachable_at_most_one_active_witness :
    activeCount ddilInit ≤ 1 ∧
    offlineIffNoEligible (pollCycle probeTotal 0 ddilInit).1 :=
  ⟨(reachable_at_most_one_active_poll_offline_iff ddilInit
      DDILReachable.init).1,
   (reachable_at_most_one_active_poll_offline_iff ddilInit
      DDILReachable.init).2 probeTotal 0⟩

end Podx
